import Mathlib

/-!
Shallow embedding of the binary serialization layer of `mnist-rs`:
the `Serialized` trait implementations for scalars and `String`
(`serialization/src/literals.rs`), `Vector` and `Matrix`
(`serialization/src/lib.rs`), the `derive(Serialize)` expansion for the
`Dense` struct and the `Activation` enum (`serialize-macro/src/lib.rs`,
with the tag strings produced by `stringify!` as evidenced by the
checked-in expansion in `serialize-macro/tests/test_macros.rs`), and the
layer registry plus `Network` codec (`neural-network/src/lib.rs`).

Machine integers are modelled as `Nat`/`Int` with explicit bounds;
`f64`/`f32` values are modelled by their bit patterns (a `Nat` below
`2^64` / `2^32`), which is exactly the element-wise bit-pattern equality
the round-trip properties are stated with.  A Rust panic (out-of-range
slice index, failed `assert_eq!`, `from_utf8(..).unwrap()` failure,
or an explicit `panic!` arm) is modelled as `Except.error` carrying the
kind of fault.
-/

set_option maxRecDepth 100000

namespace MR

/-- Fault kinds of the decoder: an out-of-range slice read (Rust index
panic on a truncated input), a failed type-tag `assert_eq!`, the
`panic!("Invalid layer tag ..")` arm of `deserialize_layers!`, the
`panic!("invalid enum variant ..")` arm of the derived enum decoder, and
a failed `String::from_utf8(..).unwrap()`. -/
inductive DecodeError where
  | outOfRange
  | tagMismatch
  | unknownTag
  | invalidVariant
  | invalidUtf8
deriving DecidableEq

instance {ε α : Type} [DecidableEq ε] [DecidableEq α] : DecidableEq (Except ε α) := fun a b =>
  match a, b with
  | .error e, .error f =>
    if h : e = f then isTrue (congrArg Except.error h)
    else isFalse (fun hh => h (Except.error.inj hh))
  | .ok x, .ok y =>
    if h : x = y then isTrue (congrArg Except.ok h)
    else isFalse (fun hh => h (Except.ok.inj hh))
  | .error _, .ok _ => isFalse (fun hh => Except.noConfusion hh)
  | .ok _, .error _ => isFalse (fun hh => Except.noConfusion hh)

/-- Big-endian bytes of `v`, `w` bytes wide: Rust `to_be_bytes` (the
result only depends on `v % 256^w`, matching the fixed-width cast). -/
def toBeBytes : Nat → Nat → List Nat
  | 0, _ => []
  | w + 1, v => v / 256 ^ w % 256 :: toBeBytes w v

/-- Rust `from_be_bytes` / `u64_from_bytes`: fold big-endian bytes back
into the value. -/
def fromBeBytes (l : List Nat) : Nat :=
  l.foldl (fun a b => 256 * a + b) 0

/-- Reading `n` bytes from the front of a slice.  Rust indexes
`data[0]`, .., `data[n-1]` (or slices `data[..n]`) and panics when the
slice is shorter; the panic is the `outOfRange` fault. -/
def readBytes (n : Nat) (data : List Nat) : Except DecodeError (List Nat) :=
  if n ≤ data.length then .ok (data.take n) else .error .outOfRange

/-- UTF-8 bytes of an ASCII literal (every tag string in the source is
ASCII, where each `char` is one byte). -/
def ascii (s : String) : List Nat :=
  s.data.map Char.toNat

/-- State of the standard UTF-8 acceptance automaton used by
`String::from_utf8`: `more` continuation bytes are still expected and
the next byte must lie in `[lo, hi]`. -/
def validUtf8From : Nat → Nat → Nat → List Nat → Bool
  | 0, _, _, [] => true
  | 0, _, _, b :: rest =>
    if b ≤ 0x7F then validUtf8From 0 0x80 0xBF rest
    else if 0xC2 ≤ b ∧ b ≤ 0xDF then validUtf8From 1 0x80 0xBF rest
    else if b = 0xE0 then validUtf8From 2 0xA0 0xBF rest
    else if b = 0xED then validUtf8From 2 0x80 0x9F rest
    else if 0xE1 ≤ b ∧ b ≤ 0xEF then validUtf8From 2 0x80 0xBF rest
    else if b = 0xF0 then validUtf8From 3 0x90 0xBF rest
    else if b = 0xF4 then validUtf8From 3 0x80 0x8F rest
    else if 0xF1 ≤ b ∧ b ≤ 0xF3 then validUtf8From 3 0x80 0xBF rest
    else false
  | _ + 1, _, _, [] => false
  | more + 1, lo, hi, b :: rest =>
    if lo ≤ b ∧ b ≤ hi then validUtf8From more 0x80 0xBF rest else false

/-- `String::from_utf8` succeeds exactly on valid UTF-8 byte sequences. -/
def validUtf8 (l : List Nat) : Bool :=
  validUtf8From 0 0x80 0xBF l

/-- `str::chars().count()`: on valid UTF-8, one `char` per
non-continuation byte. -/
def charCount (l : List Nat) : Nat :=
  (l.filter (fun b => b < 0x80 || 0xC0 ≤ b)).length

/- ## Scalar codecs (`serialization/src/literals.rs`) -/

/-- `u8::serialize_binary`: `vec![*self]`. -/
def u8Serialize (v : Nat) : List Nat := [v]

/-- `u8::deserialize_binary`: `(data[0], 1)`. -/
def u8Deserialize (data : List Nat) : Except DecodeError (Nat × Nat) := do
  let bs ← readBytes 1 data
  pure (fromBeBytes bs, 1)

/-- `u16::serialize_binary`. -/
def u16Serialize (v : Nat) : List Nat := toBeBytes 2 v

/-- `u16::deserialize_binary`. -/
def u16Deserialize (data : List Nat) : Except DecodeError (Nat × Nat) := do
  let bs ← readBytes 2 data
  pure (fromBeBytes bs, 2)

/-- `u32::serialize_binary`. -/
def u32Serialize (v : Nat) : List Nat := toBeBytes 4 v

/-- `u32::deserialize_binary`. -/
def u32Deserialize (data : List Nat) : Except DecodeError (Nat × Nat) := do
  let bs ← readBytes 4 data
  pure (fromBeBytes bs, 4)

/-- `u64::serialize_binary`. -/
def u64Serialize (v : Nat) : List Nat := toBeBytes 8 v

/-- `u64::deserialize_binary` (via `u64_from_bytes`, which indexes bytes
0..7 and panics when fewer are present). -/
def u64Deserialize (data : List Nat) : Except DecodeError (Nat × Nat) := do
  let bs ← readBytes 8 data
  pure (fromBeBytes bs, 8)

/-- `usize::serialize_binary` (64-bit target). -/
def usizeSerialize (v : Nat) : List Nat := toBeBytes 8 v

/-- `usize::deserialize_binary` delegates to `u64` on a 64-bit target. -/
def usizeDeserialize (data : List Nat) : Except DecodeError (Nat × Nat) :=
  u64Deserialize data

/-- Two's-complement big-endian bytes of a signed value, `w` bytes wide:
Rust `iN::to_be_bytes`. -/
def intToBeBytes (w : Nat) (v : Int) : List Nat :=
  toBeBytes w (v.emod (2 ^ (8 * w))).toNat

/-- Rust `iN::from_be_bytes`: reinterpret `w` big-endian bytes as a
two's-complement signed value. -/
def intFromBeBytes (w : Nat) (l : List Nat) : Int :=
  let n := fromBeBytes l
  if n < 2 ^ (8 * w - 1) then (n : Int) else (n : Int) - 2 ^ (8 * w)

/-- `i8::serialize_binary`. -/
def i8Serialize (v : Int) : List Nat := intToBeBytes 1 v

/-- `i8::deserialize_binary`. -/
def i8Deserialize (data : List Nat) : Except DecodeError (Int × Nat) := do
  let bs ← readBytes 1 data
  pure (intFromBeBytes 1 bs, 1)

/-- `i16::serialize_binary`. -/
def i16Serialize (v : Int) : List Nat := intToBeBytes 2 v

/-- `i16::deserialize_binary`. -/
def i16Deserialize (data : List Nat) : Except DecodeError (Int × Nat) := do
  let bs ← readBytes 2 data
  pure (intFromBeBytes 2 bs, 2)

/-- `i32::serialize_binary`. -/
def i32Serialize (v : Int) : List Nat := intToBeBytes 4 v

/-- `i32::deserialize_binary`. -/
def i32Deserialize (data : List Nat) : Except DecodeError (Int × Nat) := do
  let bs ← readBytes 4 data
  pure (intFromBeBytes 4 bs, 4)

/-- `i64::serialize_binary`. -/
def i64Serialize (v : Int) : List Nat := intToBeBytes 8 v

/-- `i64::deserialize_binary` (via `i64_from_bytes`). -/
def i64Deserialize (data : List Nat) : Except DecodeError (Int × Nat) := do
  let bs ← readBytes 8 data
  pure (intFromBeBytes 8 bs, 8)

/-- `isize::serialize_binary` (64-bit target). -/
def isizeSerialize (v : Int) : List Nat := intToBeBytes 8 v

/-- `isize::deserialize_binary` delegates to `i64` on a 64-bit target. -/
def isizeDeserialize (data : List Nat) : Except DecodeError (Int × Nat) :=
  i64Deserialize data

/-- `f32::serialize_binary`: the 4 big-endian bytes of the bit pattern. -/
def f32Serialize (v : Nat) : List Nat := toBeBytes 4 v

/-- `f32::deserialize_binary`. -/
def f32Deserialize (data : List Nat) : Except DecodeError (Nat × Nat) := do
  let bs ← readBytes 4 data
  pure (fromBeBytes bs, 4)

/-- `f64::serialize_binary`: the 8 big-endian bytes of the bit pattern. -/
def f64Serialize (v : Nat) : List Nat := toBeBytes 8 v

/-- `f64::deserialize_binary` (via `f64_from_bytes`, which indexes bytes
0..7). -/
def f64Deserialize (data : List Nat) : Except DecodeError (Nat × Nat) := do
  let bs ← readBytes 8 data
  pure (fromBeBytes bs, 8)

/-- `String::serialize_binary`: `[u64 byte length][UTF-8 bytes]`.  A Rust
`String` is its UTF-8 byte buffer, so the model carries the bytes. -/
def stringSerialize (s : List Nat) : List Nat :=
  toBeBytes 8 s.length ++ s

/-- `String::deserialize_binary`: read the `u64` length, slice exactly
that many bytes (panic when the slice is short), `from_utf8(..).unwrap()`
(panic on invalid UTF-8), and return `(string, len + 8)`. -/
def stringDeserialize (data : List Nat) : Except DecodeError (List Nat × Nat) := do
  let lbs ← readBytes 8 data
  let len := fromBeBytes lbs
  let bytes ← readBytes len (data.drop 8)
  if validUtf8 bytes then pure (bytes, len + 8) else .error .invalidUtf8

/- ## Vector and Matrix codecs (`serialization/src/lib.rs`) -/

/-- `math::Vector`: a `Vec<f64>`, each element carried as its bit
pattern. -/
structure Vector where
  elems : List Nat
deriving DecidableEq

/-- `Vector::serialize_binary`: `[u64 length]` then each element's 8
big-endian bytes in index order. -/
def Vector.serializeBinary (v : Vector) : List Nat :=
  toBeBytes 8 v.elems.length ++ (v.elems.map (toBeBytes 8)).flatten

/-- The element-reading loop of `Vector::deserialize_binary` (and the
inner row loop of `Matrix::deserialize_binary`): `n` consecutive
`f64::deserialize_binary` reads, 8 bytes apart. -/
def readF64s : Nat → List Nat → Except DecodeError (List Nat)
  | 0, _ => pure []
  | n + 1, data => do
    let bs ← readBytes 8 data
    let rest ← readF64s n (data.drop 8)
    pure (fromBeBytes bs :: rest)

/-- `Vector::deserialize_binary`: read the `u64` length, then `length`
elements; the returned offset is `8 + 8 * length`. -/
def Vector.deserializeBinary (data : List Nat) :
    Except DecodeError (Vector × Nat) := do
  let lbs ← readBytes 8 data
  let len := fromBeBytes lbs
  let xs ← readF64s len (data.drop 8)
  pure (⟨xs⟩, 8 + 8 * len)

/-- `math::Matrix`: `_rows`, `_cols`, and `_data` as a `Vec` of `_cols`
column vectors of `_rows` elements each. -/
structure Matrix where
  rows : Nat
  cols : Nat
  data : List (List Nat)
deriving DecidableEq

/-- `Matrix::at(col, row)`: `self._data[col].0[row]`. -/
def Matrix.at (m : Matrix) (col row : Nat) : Nat :=
  (m.data.getD col []).getD row 0

/-- The `Matrix::new`/`set` representation invariant: `_data` holds
`_cols` columns of `_rows` elements each. -/
def Matrix.WF (m : Matrix) : Prop :=
  m.data.length = m.cols ∧ ∀ col ∈ m.data, col.length = m.rows

instance (m : Matrix) : Decidable m.WF := by
  unfold Matrix.WF; infer_instance

/-- `Matrix::serialize_binary`: `[u64 rows][u64 cols]` then the elements
with the outer loop over columns and the inner loop over rows
(`self.at(i, j)` for `i < cols`, `j < rows`). -/
def Matrix.serializeBinary (m : Matrix) : List Nat :=
  toBeBytes 8 m.rows ++ toBeBytes 8 m.cols ++
    ((List.range m.cols).map
      (fun i => ((List.range m.rows).map (fun j => toBeBytes 8 (m.at i j))).flatten)).flatten

/-- The column-reading loop of `Matrix::deserialize_binary`: `cols`
columns of `rows` elements each. -/
def readColumns : Nat → Nat → List Nat → Except DecodeError (List (List Nat))
  | 0, _, _ => pure []
  | c + 1, rows, data => do
    let col ← readF64s rows data
    let rest ← readColumns c rows (data.drop (8 * rows))
    pure (col :: rest)

/-- `Matrix::deserialize_binary`: read `rows` and `cols`, then the grid
column by column; the returned offset is `16 + 8 * rows * cols`. -/
def Matrix.deserializeBinary (data : List Nat) :
    Except DecodeError (Matrix × Nat) := do
  let rbs ← readBytes 8 data
  let rows := fromBeBytes rbs
  let cbs ← readBytes 8 (data.drop 8)
  let cols := fromBeBytes cbs
  let cs ← readColumns cols rows (data.drop 16)
  pure (⟨rows, cols, cs⟩, 16 + 8 * rows * cols)

/- ## Tag reading and the derived struct/enum codecs -/

/-- Reading one length-prefixed tag: `[u64 len][len UTF-8 bytes]`, with
`from_utf8(..).unwrap()`.  This is `neural_network::deserialize_tag` and
the inline tag blocks the derive macro emits; the returned count is
`8 + tag byte length`, the amount every caller adds to its offset. -/
def readTag (data : List Nat) : Except DecodeError (List Nat × Nat) := do
  let lbs ← readBytes 8 data
  let len := fromBeBytes lbs
  let bytes ← readBytes len (data.drop 8)
  if validUtf8 bytes then pure (bytes, 8 + len) else .error .invalidUtf8

/-- `layer::Activation` (`#[derive(Serialize)]` enum with three unit
variants). -/
inductive Activation where
  | Sigmoid
  | ReLU
  | Tanh
deriving DecidableEq

/-- The wire tag the derived encoder writes for a variant:
`stringify!(::Variant)`, which renders with a space after the path
separator (see the expansion in `serialize-macro/tests/test_macros.rs`). -/
def Activation.variantTag : Activation → List Nat
  | .Sigmoid => ascii ":: Sigmoid"
  | .ReLU => ascii ":: ReLU"
  | .Tanh => ascii ":: Tanh"

/-- Derived `Activation::serialize_binary`: the length-prefixed type tag
`Self::tag() = "Activation"`, then the length-prefixed variant tag; unit
variants have no field bytes. -/
def Activation.serializeBinary (a : Activation) : List Nat :=
  toBeBytes 8 (ascii "Activation").length ++ ascii "Activation" ++
    toBeBytes 8 a.variantTag.length ++ a.variantTag

/-- Derived `Activation::deserialize_binary`: read the type tag,
`assert_eq!` it against `Self::tag()`, read the variant tag, then match
`format!("{}{}", tag, variant_name)` against the
`stringify!(Activation::Variant)` arm strings (which carry spaces around
`::`); no arm matches, so the fall-through `panic!("invalid enum
variant ..")` arm is the only reachable outcome of the match. -/
def Activation.deserializeBinary (data : List Nat) :
    Except DecodeError (Activation × Nat) := do
  let (tag, tlen) ← readTag data
  if tag = ascii "Activation" then do
    let (vname, vlen) ← readTag (data.drop tlen)
    let key := tag ++ vname
    if key = ascii "Activation :: Sigmoid" then pure (.Sigmoid, tlen + vlen)
    else if key = ascii "Activation :: ReLU" then pure (.ReLU, tlen + vlen)
    else if key = ascii "Activation :: Tanh" then pure (.Tanh, tlen + vlen)
    else .error .invalidVariant
  else .error .tagMismatch

/-- `layer::Dense` (`#[derive(Serialize)]` struct with fields `weights:
Matrix`, `biases: Vector` in declaration order). -/
structure Dense where
  weights : Matrix
  biases : Vector
deriving DecidableEq

/-- Derived `Dense::serialize_binary`: the length-prefixed type tag
`"Dense"`, then each field's own encoding in declaration order. -/
def Dense.serializeBinary (d : Dense) : List Nat :=
  toBeBytes 8 (ascii "Dense").length ++ ascii "Dense" ++
    d.weights.serializeBinary ++ d.biases.serializeBinary

/-- Derived `Dense::deserialize_binary`: read the type tag, `assert_eq!`
it against `Self::tag()`, then decode the fields in declaration order
threading the offset. -/
def Dense.deserializeBinary (data : List Nat) :
    Except DecodeError (Dense × Nat) := do
  let (tag, tlen) ← readTag data
  if tag = ascii "Dense" then do
    let (w, c1) ← Matrix.deserializeBinary (data.drop tlen)
    let (b, c2) ← Vector.deserializeBinary (data.drop (tlen + c1))
    pure (⟨w, b⟩, tlen + c1 + c2)
  else .error .tagMismatch

/- ## Layer registry and the Network codec (`neural-network/src/lib.rs`) -/

/-- A boxed `dyn Layer`: concretely an `Activation` or a `Dense`. -/
inductive Layer where
  | activation (a : Activation)
  | dense (d : Dense)
deriving DecidableEq

/-- `LayerName::name()` as UTF-8 bytes. -/
def Layer.name : Layer → List Nat
  | .activation _ => ascii "Activation"
  | .dense _ => ascii "Dense"

/-- Dynamic dispatch of `layer.serialize_binary()`. -/
def Layer.serializeBinary : Layer → List Nat
  | .activation a => a.serializeBinary
  | .dense d => d.serializeBinary

/-- The `deserialize_layers!` dispatch: match the tag string against the
statically enumerated kinds `Activation` and `Dense`; any other tag hits
`panic!("Invalid layer tag ..")`. -/
def deserializeLayers (tag : List Nat) (data : List Nat) :
    Except DecodeError (Layer × Nat) :=
  if tag = ascii "Activation" then do
    let (a, n) ← Activation.deserializeBinary data
    pure (.activation a, n)
  else if tag = ascii "Dense" then do
    let (d, n) ← Dense.deserializeBinary data
    pure (.dense d, n)
  else .error .unknownTag

/-- `Network`: the ordered layer list. -/
structure Network where
  layers : List Layer
deriving DecidableEq

/-- `Network::serialize_binary`: `[u64 layer count]` then, per layer in
index order, `[u64 tag len][tag bytes][layer payload]`. -/
def Network.serializeBinary (net : Network) : List Nat :=
  toBeBytes 8 net.layers.length ++
    (net.layers.map
      (fun l => toBeBytes 8 l.name.length ++ l.name ++ l.serializeBinary)).flatten

/-- The per-record loop of `Network::deserialize_binary`: read a tag,
dispatch through `deserialize_layers!`, and accumulate the offset. -/
def Network.deserializeLoop : Nat → List Nat → Except DecodeError (List Layer × Nat)
  | 0, _ => pure ([], 0)
  | n + 1, data => do
    let (tag, tlen) ← readTag data
    let (layer, llen) ← deserializeLayers tag (data.drop tlen)
    let (rest, rlen) ← Network.deserializeLoop n (data.drop (tlen + llen))
    pure (layer :: rest, tlen + llen + rlen)

/-- `Network::deserialize_binary`: read the `u64` layer count, then
exactly that many layer records in order. -/
def Network.deserializeBinary (data : List Nat) :
    Except DecodeError (Network × Nat) := do
  let nbs ← readBytes 8 data
  let n := fromBeBytes nbs
  let (layers, len) ← Network.deserializeLoop n (data.drop 8)
  pure (⟨layers⟩, 8 + len)


/-- The representation invariant of a `Dense` value as built by
`Dense::new`/training: a well-formed weight matrix with `usize`
dimensions and `f64` bit-pattern entries, and a bias vector with `usize`
length and `f64` bit-pattern elements. -/
def DenseWF (d : Dense) : Prop :=
  d.weights.WF ∧ d.weights.rows < 2 ^ 64 ∧ d.weights.cols < 2 ^ 64 ∧
    (∀ col ∈ d.weights.data, ∀ x ∈ col, x < 2 ^ 64) ∧
    d.biases.elems.length < 2 ^ 64 ∧ (∀ x ∈ d.biases.elems, x < 2 ^ 64)

instance (d : Dense) : Decidable (DenseWF d) := by
  unfold DenseWF; infer_instance

/-- The representation invariant of a boxed layer: `Dense` layers carry
well-formed payloads, `Activation` layers carry none. -/
def LayerWF : Layer → Prop
  | .activation _ => True
  | .dense d => DenseWF d

instance (l : Layer) : Decidable (LayerWF l) :=
  match l with
  | .activation _ => isTrue trivial
  | .dense d => inferInstanceAs (Decidable (DenseWF d))

/-- Discriminator for the affine layer kind. -/
def layerIsDense : Layer → Prop
  | .activation _ => False
  | .dense _ => True

instance (l : Layer) : Decidable (layerIsDense l) :=
  match l with
  | .activation _ => isFalse (fun h => h)
  | .dense _ => isTrue trivial

/- ## Lemmas about the byte primitives -/

theorem toBeBytes_length (w v : Nat) : (toBeBytes w v).length = w := by
  induction w generalizing v with
  | zero => rfl
  | succ w ih => simp [toBeBytes, ih]

theorem foldl_toBeBytes (w v acc : Nat) :
    (toBeBytes w v).foldl (fun a b => 256 * a + b) acc = acc * 256 ^ w + v % 256 ^ w := by
  induction w generalizing v acc with
  | zero => simp [toBeBytes, Nat.mod_one]
  | succ w ih =>
    simp only [toBeBytes, List.foldl_cons]
    rw [ih]
    have h256 : (256 : Nat) ^ (w + 1) = 256 ^ w * 256 := by ring
    rw [h256, Nat.mod_mul]
    ring

theorem fromBeBytes_toBeBytes (w v : Nat) : fromBeBytes (toBeBytes w v) = v % 256 ^ w := by
  simpa using foldl_toBeBytes w v 0

theorem readBytes_front (n : Nat) (a b : List Nat) (h : a.length = n) :
    readBytes n (a ++ b) = .ok a := by
  subst h
  rw [readBytes, if_pos (by simp), List.take_left]

theorem readBytes_all (n : Nat) (a : List Nat) (h : a.length = n) :
    readBytes n a = .ok a := by
  have := readBytes_front n a [] h
  simpa using this

theorem readBytes_short (n : Nat) (data : List Nat) (h : data.length < n) :
    readBytes n data = .error .outOfRange := by
  rw [readBytes, if_neg (by omega)]

theorem ok_bind {α β : Type} (a : α) (f : α → Except DecodeError β) :
    (Except.ok a >>= f) = f a := rfl

theorem error_bind {α β : Type} (e : DecodeError) (f : α → Except DecodeError β) :
    ((Except.error e : Except DecodeError α) >>= f) = .error e := rfl

theorem drop_exact (a b : List Nat) (n : Nat) (h : a.length = n) :
    (a ++ b).drop n = b := by
  subst h
  exact List.drop_left a b

/- ## Round-trip of the fixed-width scalar codecs -/

theorem u8_roundtrip (v : Nat) : u8Deserialize (u8Serialize v) = .ok (v, 1) := by
  simp [u8Deserialize, u8Serialize, readBytes, fromBeBytes]

theorem u16_roundtrip (v : Nat) (h : v < 2 ^ 16) :
    u16Deserialize (u16Serialize v) = .ok (v, 2) := by
  rw [u16Deserialize, u16Serialize,
    readBytes_all 2 _ (toBeBytes_length 2 v), ok_bind, fromBeBytes_toBeBytes,
    Nat.mod_eq_of_lt (by norm_num at h ⊢; omega)]
  rfl

theorem u32_roundtrip (v : Nat) (h : v < 2 ^ 32) :
    u32Deserialize (u32Serialize v) = .ok (v, 4) := by
  rw [u32Deserialize, u32Serialize,
    readBytes_all 4 _ (toBeBytes_length 4 v), ok_bind, fromBeBytes_toBeBytes,
    Nat.mod_eq_of_lt (by norm_num at h ⊢; omega)]
  rfl

theorem u64_roundtrip (v : Nat) (h : v < 2 ^ 64) :
    u64Deserialize (u64Serialize v) = .ok (v, 8) := by
  rw [u64Deserialize, u64Serialize,
    readBytes_all 8 _ (toBeBytes_length 8 v), ok_bind, fromBeBytes_toBeBytes,
    Nat.mod_eq_of_lt (by norm_num at h ⊢; omega)]
  rfl

theorem f32_roundtrip (v : Nat) (h : v < 2 ^ 32) :
    f32Deserialize (f32Serialize v) = .ok (v, 4) := by
  rw [f32Deserialize, f32Serialize,
    readBytes_all 4 _ (toBeBytes_length 4 v), ok_bind, fromBeBytes_toBeBytes,
    Nat.mod_eq_of_lt (by norm_num at h ⊢; omega)]
  rfl

theorem f64_roundtrip (v : Nat) (h : v < 2 ^ 64) :
    f64Deserialize (f64Serialize v) = .ok (v, 8) := by
  rw [f64Deserialize, f64Serialize,
    readBytes_all 8 _ (toBeBytes_length 8 v), ok_bind, fromBeBytes_toBeBytes,
    Nat.mod_eq_of_lt (by norm_num at h ⊢; omega)]
  rfl

theorem intFromBeBytes_intToBeBytes (w : Nat) (hw : 0 < w) (v : Int)
    (h1 : -(2 ^ (8 * w - 1)) ≤ v) (h2 : v < 2 ^ (8 * w - 1)) :
    intFromBeBytes w (intToBeBytes w v) = v := by
  have hsub : 8 * w - 1 + 1 = 8 * w := by omega
  have hM : (2 : Int) ^ (8 * w) = 2 * 2 ^ (8 * w - 1) := by
    conv_lhs => rw [← hsub]
    rw [pow_succ]; ring
  have hKpos : (0 : Int) < 2 ^ (8 * w - 1) := by positivity
  have hMpos : (0 : Int) < 2 ^ (8 * w) := by positivity
  have hcast : ((v.emod (2 ^ (8 * w))).toNat : Int) = v.emod (2 ^ (8 * w)) :=
    Int.toNat_of_nonneg (Int.emod_nonneg v (by omega))
  have hemod : v.emod (2 ^ (8 * w)) = if 0 ≤ v then v else v + 2 ^ (8 * w) := by
    split
    · exact Int.emod_eq_of_lt (by assumption) (by omega)
    · have hx : v + 2 ^ (8 * w) = v + 2 ^ (8 * w) * 1 := by ring
      rw [show v.emod (2 ^ (8 * w)) = (v + 2 ^ (8 * w) * 1).emod (2 ^ (8 * w)) from
        (Int.add_mul_emod_self_left v (2 ^ (8 * w)) 1).symm]
      rw [← hx]
      exact Int.emod_eq_of_lt (by omega) (by omega)
  have hNcast : (((2 ^ (8 * w) : Nat) : Int)) = 2 ^ (8 * w) := by push_cast; rfl
  have hbound : (v.emod (2 ^ (8 * w))).toNat < 2 ^ (8 * w) := by
    have hlt := Int.emod_lt_of_pos v hMpos
    have hge := Int.emod_nonneg v (by omega : (2 : Int) ^ (8 * w) ≠ 0)
    omega
  have hnat256 : (256 : Nat) ^ w = 2 ^ (8 * w) := by
    rw [show (256 : Nat) = 2 ^ 8 from rfl, ← pow_mul]
  rw [intFromBeBytes, intToBeBytes, fromBeBytes_toBeBytes, hnat256,
    Nat.mod_eq_of_lt hbound]
  by_cases hv : 0 ≤ v
  · rw [if_pos]
    · omega
    · have : ((v.emod (2 ^ (8 * w))).toNat : Int) < 2 ^ (8 * w - 1) := by
        rw [hcast, hemod, if_pos hv]; exact h2
      have hc : ((2 ^ (8 * w - 1) : Nat) : Int) = 2 ^ (8 * w - 1) := by push_cast; rfl
      omega
  · rw [if_neg]
    · have hc : ((2 ^ (8 * w) : Nat) : Int) = 2 ^ (8 * w) := by push_cast; rfl
      rw [hemod, if_neg hv] at hcast
      omega
    · have : 2 ^ (8 * w - 1) ≤ ((v.emod (2 ^ (8 * w))).toNat : Int) := by
        rw [hcast, hemod, if_neg hv]; omega
      have hc : ((2 ^ (8 * w - 1) : Nat) : Int) = 2 ^ (8 * w - 1) := by push_cast; rfl
      omega

theorem intToBeBytes_length (w : Nat) (v : Int) : (intToBeBytes w v).length = w := by
  rw [intToBeBytes]; exact toBeBytes_length w _

theorem i8_roundtrip (v : Int) (h1 : -(2 ^ 7) ≤ v) (h2 : v < 2 ^ 7) :
    i8Deserialize (i8Serialize v) = .ok (v, 1) := by
  rw [i8Deserialize, i8Serialize, readBytes_all 1 _ (intToBeBytes_length 1 _), ok_bind,
    intFromBeBytes_intToBeBytes 1 (by omega) v (by norm_num at h1 ⊢; omega)
      (by norm_num at h2 ⊢; omega)]
  rfl

theorem i16_roundtrip (v : Int) (h1 : -(2 ^ 15) ≤ v) (h2 : v < 2 ^ 15) :
    i16Deserialize (i16Serialize v) = .ok (v, 2) := by
  rw [i16Deserialize, i16Serialize, readBytes_all 2 _ (intToBeBytes_length 2 _), ok_bind,
    intFromBeBytes_intToBeBytes 2 (by omega) v (by norm_num at h1 ⊢; omega)
      (by norm_num at h2 ⊢; omega)]
  rfl

theorem i32_roundtrip (v : Int) (h1 : -(2 ^ 31) ≤ v) (h2 : v < 2 ^ 31) :
    i32Deserialize (i32Serialize v) = .ok (v, 4) := by
  rw [i32Deserialize, i32Serialize, readBytes_all 4 _ (intToBeBytes_length 4 _), ok_bind,
    intFromBeBytes_intToBeBytes 4 (by omega) v (by norm_num at h1 ⊢; omega)
      (by norm_num at h2 ⊢; omega)]
  rfl

theorem i64_roundtrip (v : Int) (h1 : -(2 ^ 63) ≤ v) (h2 : v < 2 ^ 63) :
    i64Deserialize (i64Serialize v) = .ok (v, 8) := by
  rw [i64Deserialize, i64Serialize, readBytes_all 8 _ (intToBeBytes_length 8 _), ok_bind,
    intFromBeBytes_intToBeBytes 8 (by omega) v (by norm_num at h1 ⊢; omega)
      (by norm_num at h2 ⊢; omega)]
  rfl

/- ## Vector-level lemmas -/

theorem flatten_map_length (xs : List Nat) :
    ((xs.map (toBeBytes 8)).flatten).length = 8 * xs.length := by
  induction xs with
  | nil => rfl
  | cons x xs ih =>
    simp only [List.map_cons, List.flatten_cons, List.length_append, toBeBytes_length,
      List.length_cons, ih]
    ring

theorem readF64s_flatten (xs : List Nat) (r : List Nat) (h : ∀ x ∈ xs, x < 2 ^ 64) :
    readF64s xs.length ((xs.map (toBeBytes 8)).flatten ++ r) = .ok xs := by
  induction xs generalizing r with
  | nil => rfl
  | cons x xs ih =>
    have hx : x < 2 ^ 64 := h x (by simp)
    have hx256 : x < 256 ^ 8 := by norm_num at hx ⊢; omega
    simp only [List.length_cons, List.map_cons, List.flatten_cons, List.append_assoc]
    rw [readF64s,
      readBytes_front 8 _ _ (toBeBytes_length 8 x), ok_bind,
      drop_exact _ _ 8 (toBeBytes_length 8 x),
      ih r (fun y hy => h y (by simp [hy])), ok_bind,
      fromBeBytes_toBeBytes, Nat.mod_eq_of_lt hx256]
    rfl

theorem vectorSer_length (v : Vector) :
    (Vector.serializeBinary v).length = 8 + 8 * v.elems.length := by
  rw [Vector.serializeBinary, List.length_append, toBeBytes_length, flatten_map_length]

theorem vector_roundtrip (v : Vector) (r : List Nat) (hl : v.elems.length < 2 ^ 64)
    (he : ∀ x ∈ v.elems, x < 2 ^ 64) :
    Vector.deserializeBinary (Vector.serializeBinary v ++ r) =
      .ok (v, 8 + 8 * v.elems.length) := by
  have hl256 : v.elems.length < 256 ^ 8 := by norm_num at hl ⊢; omega
  rw [Vector.serializeBinary, Vector.deserializeBinary, List.append_assoc,
    readBytes_front 8 _ _ (toBeBytes_length 8 _), ok_bind,
    drop_exact _ _ 8 (toBeBytes_length 8 _),
    fromBeBytes_toBeBytes, Nat.mod_eq_of_lt hl256]
  simp only [readF64s_flatten v.elems r he, ok_bind]
  rfl

/- ## Matrix-level lemmas -/

theorem map_range_getD {α β : Type} (l : List α) (d : α) (f : α → β) :
    (List.range l.length).map (fun i => f (l.getD i d)) = l.map f := by
  induction l with
  | nil => rfl
  | cons a t ih =>
    rw [List.length_cons, List.range_succ_eq_map]
    simp only [List.map_cons, List.map_map, List.getD_cons_zero, Function.comp_def,
      List.getD_cons_succ]
    rw [ih]

theorem colsSer_eq (cs : List (List Nat)) (R : Nat) (h : ∀ col ∈ cs, col.length = R) :
    (List.range cs.length).map
        (fun i => ((List.range R).map (fun j => toBeBytes 8 ((cs.getD i []).getD j 0))).flatten)
      = cs.map (fun col => (col.map (toBeBytes 8)).flatten) := by
  rw [map_range_getD cs []
    (fun col => ((List.range R).map (fun j => toBeBytes 8 (col.getD j 0))).flatten)]
  refine List.map_congr_left (fun col hcol => ?_)
  rw [← h col hcol, map_range_getD col 0 (toBeBytes 8)]

theorem matrixSer_eq (m : Matrix) (h : m.WF) :
    Matrix.serializeBinary m = toBeBytes 8 m.rows ++ toBeBytes 8 m.cols ++
      (m.data.map (fun col => (col.map (toBeBytes 8)).flatten)).flatten := by
  obtain ⟨hlen, hcols⟩ := h
  simp only [Matrix.serializeBinary, Matrix.at]
  rw [← hlen, colsSer_eq m.data m.rows hcols]

theorem flattenCols_length (cs : List (List Nat)) (R : Nat)
    (h : ∀ col ∈ cs, col.length = R) :
    ((cs.map (fun col => (col.map (toBeBytes 8)).flatten)).flatten).length
      = 8 * R * cs.length := by
  induction cs with
  | nil => rfl
  | cons col cs ih =>
    simp only [List.map_cons, List.flatten_cons, List.length_append, List.length_cons,
      flatten_map_length, h col (by simp), ih (fun c hc => h c (by simp [hc]))]
    ring

theorem matrixSer_length (m : Matrix) (h : m.WF) :
    (Matrix.serializeBinary m).length = 16 + 8 * m.rows * m.cols := by
  rw [matrixSer_eq m h]
  simp only [List.length_append, toBeBytes_length, flattenCols_length m.data m.rows h.2, h.1]

theorem readColumns_flatten (cs : List (List Nat)) (R : Nat) (r : List Nat)
    (hlen : ∀ col ∈ cs, col.length = R)
    (hval : ∀ col ∈ cs, ∀ x ∈ col, x < 2 ^ 64) :
    readColumns cs.length R
      ((cs.map (fun col => (col.map (toBeBytes 8)).flatten)).flatten ++ r) = .ok cs := by
  induction cs generalizing r with
  | nil => rfl
  | cons col cs ih =>
    have hcl : col.length = R := hlen col (by simp)
    have hfl : ((col.map (toBeBytes 8)).flatten).length = 8 * R := by
      rw [flatten_map_length, hcl]
    have h1 : readF64s R ((col.map (toBeBytes 8)).flatten ++
        ((cs.map (fun c => (c.map (toBeBytes 8)).flatten)).flatten ++ r)) = .ok col := by
      rw [← hcl]
      exact readF64s_flatten col _ (hval col (by simp))
    simp only [List.length_cons, List.map_cons, List.flatten_cons, List.append_assoc]
    rw [readColumns, h1, ok_bind, drop_exact _ _ (8 * R) hfl,
      ih r (fun c hc => hlen c (by simp [hc])) (fun c hc => hval c (by simp [hc])), ok_bind]
    rfl

theorem matrix_roundtrip (m : Matrix) (r : List Nat) (h : m.WF)
    (hr : m.rows < 2 ^ 64) (hc : m.cols < 2 ^ 64)
    (he : ∀ col ∈ m.data, ∀ x ∈ col, x < 2 ^ 64) :
    Matrix.deserializeBinary (Matrix.serializeBinary m ++ r) =
      .ok (m, 16 + 8 * m.rows * m.cols) := by
  have hr256 : m.rows < 256 ^ 8 := by norm_num at hr ⊢; omega
  have hc256 : m.cols < 256 ^ 8 := by norm_num at hc ⊢; omega
  rw [matrixSer_eq m h, Matrix.deserializeBinary, List.append_assoc, List.append_assoc,
    readBytes_front 8 _ _ (toBeBytes_length 8 _), ok_bind,
    drop_exact _ _ 8 (toBeBytes_length 8 _),
    readBytes_front 8 _ _ (toBeBytes_length 8 _), ok_bind]
  have h16 : (toBeBytes 8 m.rows ++ (toBeBytes 8 m.cols ++
      ((m.data.map (fun col => (col.map (toBeBytes 8)).flatten)).flatten ++ r))).drop 16
      = (m.data.map (fun col => (col.map (toBeBytes 8)).flatten)).flatten ++ r := by
    rw [show (16 : Nat) = 8 + 8 from rfl, ← List.drop_drop,
      drop_exact _ _ 8 (toBeBytes_length 8 _), drop_exact _ _ 8 (toBeBytes_length 8 _)]
  rw [h16, fromBeBytes_toBeBytes, fromBeBytes_toBeBytes,
    Nat.mod_eq_of_lt hr256, Nat.mod_eq_of_lt hc256, ← h.1]
  simp only [readColumns_flatten m.data m.rows r h.2 he, ok_bind]
  rw [h.1]
  rfl

theorem flatten_window (xs : List Nat) (j : Nat) (r : List Nat) (h : j < xs.length) :
    (((xs.map (toBeBytes 8)).flatten ++ r).drop (8 * j)).take 8
      = toBeBytes 8 (xs.getD j 0) := by
  induction xs generalizing j r with
  | nil => simp at h
  | cons x xs ih =>
    cases j with
    | zero =>
      simp only [Nat.mul_zero, List.drop_zero, List.map_cons, List.flatten_cons,
        List.append_assoc, List.getD_cons_zero]
      have htk := List.take_left (toBeBytes 8 x) ((xs.map (toBeBytes 8)).flatten ++ r)
      rw [toBeBytes_length] at htk
      exact htk
    | succ j =>
      simp only [List.map_cons, List.flatten_cons, List.append_assoc, List.getD_cons_succ]
      rw [show 8 * (j + 1) = (toBeBytes 8 x).length + 8 * j by
          rw [toBeBytes_length]; ring,
        List.drop_append]
      exact ih j r (by simpa using h)

theorem cols_window (cs : List (List Nat)) (R c j : Nat) (r : List Nat)
    (hlen : ∀ col ∈ cs, col.length = R) (hc : c < cs.length) (hj : j < R) :
    ((((cs.map (fun col => (col.map (toBeBytes 8)).flatten)).flatten ++ r).drop
        (8 * (c * R + j))).take 8)
      = toBeBytes 8 ((cs.getD c []).getD j 0) := by
  induction cs generalizing c r with
  | nil => simp at hc
  | cons col cs ih =>
    cases c with
    | zero =>
      simp only [Nat.zero_mul, Nat.zero_add, List.map_cons, List.flatten_cons,
        List.append_assoc, List.getD_cons_zero]
      exact flatten_window col j _ (by rw [hlen col (by simp)]; exact hj)
    | succ c =>
      have hfl : ((col.map (toBeBytes 8)).flatten).length = 8 * R := by
        rw [flatten_map_length, hlen col (by simp)]
      simp only [List.map_cons, List.flatten_cons, List.append_assoc, List.getD_cons_succ]
      rw [show 8 * ((c + 1) * R + j) = ((col.map (toBeBytes 8)).flatten).length +
          8 * (c * R + j) by rw [hfl]; ring,
        List.drop_append]
      exact ih c r (fun d hd => hlen d (by simp [hd])) (by simpa using hc)

theorem matrix_window (m : Matrix) (h : m.WF) (row col : Nat)
    (hrow : row < m.rows) (hcol : col < m.cols) :
    (((Matrix.serializeBinary m).drop (16 + 8 * (col * m.rows + row))).take 8)
      = toBeBytes 8 (m.at col row) := by
  have hpre : (toBeBytes 8 m.rows ++ toBeBytes 8 m.cols).length = 16 := by
    rw [List.length_append, toBeBytes_length, toBeBytes_length]
  have hwin := cols_window m.data m.rows col row [] h.2 (by rw [h.1]; exact hcol) hrow
  rw [List.append_nil] at hwin
  rw [matrixSer_eq m h,
    show 16 + 8 * (col * m.rows + row) =
      (toBeBytes 8 m.rows ++ toBeBytes 8 m.cols).length + 8 * (col * m.rows + row) by
        rw [hpre],
    List.drop_append, hwin]
  rfl

/- ## String-level lemmas -/

theorem stringSer_length (s : List Nat) :
    (stringSerialize s).length = 8 + s.length := by
  simp [stringSerialize, toBeBytes_length]

theorem string_roundtrip (s : List Nat) (r : List Nat) (hv : validUtf8 s = true)
    (hl : s.length < 2 ^ 64) :
    stringDeserialize (stringSerialize s ++ r) = .ok (s, s.length + 8) := by
  have hl256 : s.length < 256 ^ 8 := by norm_num at hl ⊢; omega
  rw [stringSerialize, stringDeserialize, List.append_assoc,
    readBytes_front 8 _ _ (toBeBytes_length 8 _), ok_bind,
    drop_exact _ _ 8 (toBeBytes_length 8 _),
    fromBeBytes_toBeBytes, Nat.mod_eq_of_lt hl256]
  simp only [readBytes_front s.length s r rfl, ok_bind]
  rw [if_pos hv]
  rfl


/- ## Fault-path lemmas -/

theorem u64_truncated (data : List Nat) (h : data.length < 8) :
    u64Deserialize data = .error .outOfRange := by
  rw [u64Deserialize, readBytes_short 8 data h, error_bind]

theorem f64_truncated (data : List Nat) (h : data.length < 8) :
    f64Deserialize data = .error .outOfRange := by
  rw [f64Deserialize, readBytes_short 8 data h, error_bind]

theorem string_truncated (data : List Nat) (h : data.length < 8) :
    stringDeserialize data = .error .outOfRange := by
  rw [stringDeserialize, readBytes_short 8 data h, error_bind]

theorem vector_truncated (data : List Nat) (h : data.length < 8) :
    Vector.deserializeBinary data = .error .outOfRange := by
  rw [Vector.deserializeBinary, readBytes_short 8 data h, error_bind]

theorem network_truncated (data : List Nat) (h : data.length < 8) :
    Network.deserializeBinary data = .error .outOfRange := by
  rw [Network.deserializeBinary, readBytes_short 8 data h, error_bind]

theorem dense_tag_mismatch (data tag : List Nat) (c : Nat)
    (h : readTag data = .ok (tag, c)) (hne : tag ≠ ascii "Dense") :
    Dense.deserializeBinary data = .error .tagMismatch := by
  rw [Dense.deserializeBinary, h]
  simp only [ok_bind, if_neg hne]

theorem activation_tag_mismatch (data tag : List Nat) (c : Nat)
    (h : readTag data = .ok (tag, c)) (hne : tag ≠ ascii "Activation") :
    Activation.deserializeBinary data = .error .tagMismatch := by
  rw [Activation.deserializeBinary, h]
  simp only [ok_bind, if_neg hne]

theorem deserializeLayers_unknown (tag data : List Nat)
    (h1 : tag ≠ ascii "Activation") (h2 : tag ≠ ascii "Dense") :
    deserializeLayers tag data = .error .unknownTag := by
  rw [deserializeLayers, if_neg h1, if_neg h2]

theorem activation_invalid_variant (data tag vname : List Nat) (c c2 : Nat)
    (h1 : readTag data = .ok (tag, c)) (h2 : tag = ascii "Activation")
    (h3 : readTag (data.drop c) = .ok (vname, c2))
    (k1 : tag ++ vname ≠ ascii "Activation :: Sigmoid")
    (k2 : tag ++ vname ≠ ascii "Activation :: ReLU")
    (k3 : tag ++ vname ≠ ascii "Activation :: Tanh") :
    Activation.deserializeBinary data = .error .invalidVariant := by
  subst h2
  rw [Activation.deserializeBinary, h1]
  simp only [ok_bind, if_pos rfl, h3, if_neg k1, if_neg k2, if_neg k3, if_true]

/- ## Truncation lemmas: prefixes of encodings fault out-of-range -/

theorem take_exact_add (a b : List Nat) (n k : Nat) (h : a.length = n) :
    (a ++ b).take (n + k) = a ++ b.take k := by
  subst h
  exact List.take_append k

theorem drop_exact_add (a b : List Nat) (n k : Nat) (h : a.length = n) :
    (a ++ b).drop (n + k) = b.drop k := by
  subst h
  exact List.drop_append k

theorem readBytes_ok_of_le (n : Nat) (data : List Nat) (h : n ≤ data.length) :
    readBytes n data = .ok (data.take n) := by
  rw [readBytes, if_pos h]

theorem u8_truncated (data : List Nat) (h : data.length < 1) :
    u8Deserialize data = .error .outOfRange := by
  rw [u8Deserialize, readBytes_short 1 data h, error_bind]

theorem u16_truncated (data : List Nat) (h : data.length < 2) :
    u16Deserialize data = .error .outOfRange := by
  rw [u16Deserialize, readBytes_short 2 data h, error_bind]

theorem u32_truncated (data : List Nat) (h : data.length < 4) :
    u32Deserialize data = .error .outOfRange := by
  rw [u32Deserialize, readBytes_short 4 data h, error_bind]

theorem usize_truncated (data : List Nat) (h : data.length < 8) :
    usizeDeserialize data = .error .outOfRange :=
  u64_truncated data h

theorem i8_truncated (data : List Nat) (h : data.length < 1) :
    i8Deserialize data = .error .outOfRange := by
  rw [i8Deserialize, readBytes_short 1 data h, error_bind]

theorem i16_truncated (data : List Nat) (h : data.length < 2) :
    i16Deserialize data = .error .outOfRange := by
  rw [i16Deserialize, readBytes_short 2 data h, error_bind]

theorem i32_truncated (data : List Nat) (h : data.length < 4) :
    i32Deserialize data = .error .outOfRange := by
  rw [i32Deserialize, readBytes_short 4 data h, error_bind]

theorem i64_truncated (data : List Nat) (h : data.length < 8) :
    i64Deserialize data = .error .outOfRange := by
  rw [i64Deserialize, readBytes_short 8 data h, error_bind]

theorem isize_truncated (data : List Nat) (h : data.length < 8) :
    isizeDeserialize data = .error .outOfRange :=
  i64_truncated data h

theorem f32_truncated (data : List Nat) (h : data.length < 4) :
    f32Deserialize data = .error .outOfRange := by
  rw [f32Deserialize, readBytes_short 4 data h, error_bind]

theorem readTag_front (t r : List Nat) (hv : validUtf8 t = true) (hl : t.length < 2 ^ 64) :
    readTag (toBeBytes 8 t.length ++ (t ++ r)) = .ok (t, 8 + t.length) := by
  have hl256 : t.length < 256 ^ 8 := by norm_num at hl ⊢; omega
  rw [readTag, readBytes_front 8 _ _ (toBeBytes_length 8 _), ok_bind,
    drop_exact _ _ 8 (toBeBytes_length 8 _),
    fromBeBytes_toBeBytes, Nat.mod_eq_of_lt hl256]
  simp only [readBytes_front t.length t r rfl, ok_bind]
  rw [if_pos hv]
  rfl

theorem readTag_short (t r : List Nat) (k : Nat) (hl : t.length < 2 ^ 64)
    (hk : k < 8 + t.length) :
    readTag ((toBeBytes 8 t.length ++ (t ++ r)).take k) = .error .outOfRange := by
  by_cases h8 : k < 8
  · have hlen : ((toBeBytes 8 t.length ++ (t ++ r)).take k).length < 8 := by
      rw [List.length_take]; omega
    rw [readTag, readBytes_short 8 _ hlen, error_bind]
  · obtain ⟨k2, rfl⟩ : ∃ k2, k = 8 + k2 := ⟨k - 8, by omega⟩
    have hk2 : k2 < t.length := by omega
    have hl256 : t.length < 256 ^ 8 := by norm_num at hl ⊢; omega
    rw [take_exact_add _ _ 8 k2 (toBeBytes_length 8 _),
      List.take_append_of_le_length (by omega : k2 ≤ t.length)]
    rw [readTag, readBytes_front 8 _ _ (toBeBytes_length 8 _), ok_bind,
      drop_exact _ _ 8 (toBeBytes_length 8 _),
      fromBeBytes_toBeBytes, Nat.mod_eq_of_lt hl256]
    have hlen2 : (t.take k2).length < t.length := by rw [List.length_take]; omega
    simp only [readBytes_short t.length (t.take k2) hlen2, error_bind]

theorem readF64s_short (k : Nat) (data : List Nat) (h : data.length < 8 * k) :
    readF64s k data = .error .outOfRange := by
  induction k generalizing data with
  | zero => omega
  | succ k ih =>
    by_cases h8 : data.length < 8
    · rw [readF64s, readBytes_short 8 data h8, error_bind]
    · rw [readF64s, readBytes_ok_of_le 8 data (by omega), ok_bind,
        ih (data.drop 8) (by rw [List.length_drop]; omega), error_bind]

theorem readF64s_total (k : Nat) (data : List Nat) (h : 8 * k ≤ data.length) :
    ∃ xs, readF64s k data = .ok xs := by
  induction k generalizing data with
  | zero => exact ⟨[], rfl⟩
  | succ k ih =>
    obtain ⟨xs, hxs⟩ := ih (data.drop 8) (by rw [List.length_drop]; omega)
    refine ⟨fromBeBytes (data.take 8) :: xs, ?_⟩
    rw [readF64s, readBytes_ok_of_le 8 data (by omega), ok_bind, hxs, ok_bind]
    rfl

theorem readColumns_short (C R : Nat) (data : List Nat) (h : data.length < 8 * R * C) :
    readColumns C R data = .error .outOfRange := by
  induction C generalizing data with
  | zero => rw [Nat.mul_zero] at h; omega
  | succ C ih =>
    have hmul : 8 * R * (C + 1) = 8 * R * C + 8 * R := by ring
    by_cases hR : data.length < 8 * R
    · rw [readColumns, readF64s_short R data hR, error_bind]
    · obtain ⟨xs, hxs⟩ := readF64s_total R data (by omega)
      rw [readColumns, hxs, ok_bind,
        ih (data.drop (8 * R)) (by rw [List.length_drop]; omega), error_bind]

theorem string_truncated_general (st : List Nat) (k : Nat) (hl : st.length < 2 ^ 64)
    (hk : k < (stringSerialize st).length) :
    stringDeserialize ((stringSerialize st).take k) = .error .outOfRange := by
  have hlen := stringSer_length st
  by_cases h8 : k < 8
  · have hsh : ((stringSerialize st).take k).length < 8 := by rw [List.length_take]; omega
    rw [stringDeserialize, readBytes_short 8 _ hsh, error_bind]
  · obtain ⟨k2, rfl⟩ : ∃ k2, k = 8 + k2 := ⟨k - 8, by omega⟩
    have hk2 : k2 < st.length := by omega
    have hl256 : st.length < 256 ^ 8 := by norm_num at hl ⊢; omega
    rw [stringSerialize, take_exact_add _ _ 8 k2 (toBeBytes_length 8 _)]
    rw [stringDeserialize, readBytes_front 8 _ _ (toBeBytes_length 8 _), ok_bind,
      drop_exact _ _ 8 (toBeBytes_length 8 _),
      fromBeBytes_toBeBytes, Nat.mod_eq_of_lt hl256]
    have hsh2 : (st.take k2).length < st.length := by rw [List.length_take]; omega
    simp only [readBytes_short st.length (st.take k2) hsh2, error_bind]

theorem vector_truncated_general (v : Vector) (k : Nat) (hl : v.elems.length < 2 ^ 64)
    (hk : k < (Vector.serializeBinary v).length) :
    Vector.deserializeBinary ((Vector.serializeBinary v).take k) = .error .outOfRange := by
  have hlen := vectorSer_length v
  by_cases h8 : k < 8
  · have hsh : ((Vector.serializeBinary v).take k).length < 8 := by rw [List.length_take]; omega
    rw [Vector.deserializeBinary, readBytes_short 8 _ hsh, error_bind]
  · obtain ⟨k2, rfl⟩ : ∃ k2, k = 8 + k2 := ⟨k - 8, by omega⟩
    have hk2 : k2 < 8 * v.elems.length := by omega
    have hl256 : v.elems.length < 256 ^ 8 := by norm_num at hl ⊢; omega
    rw [Vector.serializeBinary, take_exact_add _ _ 8 k2 (toBeBytes_length 8 _)]
    rw [Vector.deserializeBinary, readBytes_front 8 _ _ (toBeBytes_length 8 _), ok_bind,
      drop_exact _ _ 8 (toBeBytes_length 8 _),
      fromBeBytes_toBeBytes, Nat.mod_eq_of_lt hl256]
    have hsh2 : (((v.elems.map (toBeBytes 8)).flatten).take k2).length < 8 * v.elems.length := by
      rw [List.length_take, flatten_map_length]; omega
    simp only [readF64s_short v.elems.length _ hsh2, error_bind]

theorem matrix_truncated_general (m : Matrix) (k : Nat) (h : m.WF) (hr : m.rows < 2 ^ 64)
    (hc : m.cols < 2 ^ 64) (hk : k < (Matrix.serializeBinary m).length) :
    Matrix.deserializeBinary ((Matrix.serializeBinary m).take k) = .error .outOfRange := by
  have hslen := matrixSer_length m h
  have hJ : ((m.data.map (fun col => (col.map (toBeBytes 8)).flatten)).flatten).length =
      8 * m.rows * m.cols := by
    rw [flattenCols_length m.data m.rows h.2, h.1]
  have hr256 : m.rows < 256 ^ 8 := by norm_num at hr ⊢; omega
  have hc256 : m.cols < 256 ^ 8 := by norm_num at hc ⊢; omega
  by_cases h8 : k < 8
  · have hsh : ((Matrix.serializeBinary m).take k).length < 8 := by rw [List.length_take]; omega
    rw [Matrix.deserializeBinary, readBytes_short 8 _ hsh, error_bind]
  · by_cases h16 : k < 16
    · obtain ⟨k2, rfl⟩ : ∃ k2, k = 8 + k2 := ⟨k - 8, by omega⟩
      have hk2 : k2 < 8 := by omega
      rw [matrixSer_eq m h, List.append_assoc, take_exact_add _ _ 8 k2 (toBeBytes_length 8 _)]
      rw [Matrix.deserializeBinary, readBytes_front 8 _ _ (toBeBytes_length 8 _), ok_bind]
      have hsh2 : ((toBeBytes 8 m.cols ++
          (m.data.map (fun col => (col.map (toBeBytes 8)).flatten)).flatten).take k2).length
          < 8 := by
        rw [List.length_take]; omega
      simp only [drop_exact _ _ 8 (toBeBytes_length 8 _), readBytes_short 8 _ hsh2, error_bind]
    · obtain ⟨k3, rfl⟩ : ∃ k3, k = 8 + (8 + k3) := ⟨k - 16, by omega⟩
      have hk3 : k3 < 8 * m.rows * m.cols := by omega
      rw [matrixSer_eq m h, List.append_assoc, take_exact_add _ _ 8 _ (toBeBytes_length 8 _),
        take_exact_add _ _ 8 k3 (toBeBytes_length 8 _)]
      rw [Matrix.deserializeBinary, readBytes_front 8 _ _ (toBeBytes_length 8 _), ok_bind]
      have hdrop8 : (toBeBytes 8 m.rows ++ (toBeBytes 8 m.cols ++
          ((m.data.map (fun col => (col.map (toBeBytes 8)).flatten)).flatten).take k3)).drop 8 =
          toBeBytes 8 m.cols ++
            ((m.data.map (fun col => (col.map (toBeBytes 8)).flatten)).flatten).take k3 :=
        drop_exact _ _ 8 (toBeBytes_length 8 _)
      have hdrop16 : (toBeBytes 8 m.rows ++ (toBeBytes 8 m.cols ++
          ((m.data.map (fun col => (col.map (toBeBytes 8)).flatten)).flatten).take k3)).drop 16 =
          ((m.data.map (fun col => (col.map (toBeBytes 8)).flatten)).flatten).take k3 := by
        rw [show (16 : Nat) = 8 + 8 from rfl, drop_exact_add _ _ 8 8 (toBeBytes_length 8 _),
          drop_exact _ _ 8 (toBeBytes_length 8 _)]
      have hsh3 : (((m.data.map (fun col => (col.map (toBeBytes 8)).flatten)).flatten).take
          k3).length < 8 * m.rows * m.cols := by
        rw [List.length_take]; omega
      simp only [hdrop8, readBytes_front 8 _ _ (toBeBytes_length 8 _), ok_bind,
        fromBeBytes_toBeBytes, Nat.mod_eq_of_lt hr256, Nat.mod_eq_of_lt hc256,
        hdrop16, readColumns_short m.cols m.rows _ hsh3, error_bind]

theorem readTag_dense (r : List Nat) :
    readTag (toBeBytes 8 (ascii "Dense").length ++ (ascii "Dense" ++ r)) =
      .ok (ascii "Dense", 13) := by
  rw [readTag_front (ascii "Dense") r (by decide) (by decide),
    show 8 + (ascii "Dense").length = 13 from by decide]

theorem readTag_activation (r : List Nat) :
    readTag (toBeBytes 8 (ascii "Activation").length ++ (ascii "Activation" ++ r)) =
      .ok (ascii "Activation", 18) := by
  rw [readTag_front (ascii "Activation") r (by decide) (by decide),
    show 8 + (ascii "Activation").length = 18 from by decide]

theorem drop_tag13 (X : List Nat) :
    (toBeBytes 8 (ascii "Dense").length ++ (ascii "Dense" ++ X)).drop 13 = X := by
  rw [show (13 : Nat) = 8 + 5 from rfl, drop_exact_add _ _ 8 5 (toBeBytes_length 8 _),
    drop_exact _ _ 5 (by decide : (ascii "Dense").length = 5)]

theorem drop_tag18 (X : List Nat) :
    (toBeBytes 8 (ascii "Activation").length ++ (ascii "Activation" ++ X)).drop 18 = X := by
  rw [show (18 : Nat) = 8 + 10 from rfl, drop_exact_add _ _ 8 10 (toBeBytes_length 8 _),
    drop_exact _ _ 10 (by decide : (ascii "Activation").length = 10)]

theorem denseSer_length (d : Dense) :
    (Dense.serializeBinary d).length =
      13 + (Matrix.serializeBinary d.weights).length +
        (Vector.serializeBinary d.biases).length := by
  rw [Dense.serializeBinary]
  simp only [List.length_append, toBeBytes_length]
  have h5 : (ascii "Dense").length = 5 := by decide
  omega

theorem dense_roundtrip (d : Dense) (r : List Nat) (h : DenseWF d) :
    Dense.deserializeBinary (Dense.serializeBinary d ++ r) =
      .ok (d, (Dense.serializeBinary d).length) := by
  obtain ⟨hwf, hrw, hcw, hew, hbl, hbe⟩ := h
  rw [Dense.deserializeBinary]
  simp only [Dense.serializeBinary, List.append_assoc]
  rw [readTag_dense]
  simp only [ok_bind, reduceIte]
  rw [drop_tag13, matrix_roundtrip d.weights (Vector.serializeBinary d.biases ++ r) hwf hrw hcw hew]
  simp only [ok_bind]
  have hdV : (toBeBytes 8 (ascii "Dense").length ++ (ascii "Dense" ++
      (Matrix.serializeBinary d.weights ++ (Vector.serializeBinary d.biases ++ r)))).drop
      (13 + (16 + 8 * d.weights.rows * d.weights.cols)) =
      Vector.serializeBinary d.biases ++ r := by
    rw [show 13 + (16 + 8 * d.weights.rows * d.weights.cols) =
        8 + (5 + (16 + 8 * d.weights.rows * d.weights.cols)) from by omega,
      drop_exact_add _ _ 8 _ (toBeBytes_length 8 _),
      drop_exact_add _ _ 5 _ (by decide : (ascii "Dense").length = 5),
      drop_exact _ _ _ (matrixSer_length d.weights hwf)]
  rw [hdV, vector_roundtrip d.biases r hbl hbe]
  simp only [ok_bind]
  have hlen : (toBeBytes 8 (ascii "Dense").length ++ (ascii "Dense" ++
      (Matrix.serializeBinary d.weights ++ Vector.serializeBinary d.biases))).length =
      13 + (16 + 8 * d.weights.rows * d.weights.cols) + (8 + 8 * d.biases.elems.length) := by
    simp only [List.length_append, toBeBytes_length, matrixSer_length d.weights hwf,
      vectorSer_length d.biases]
    have h5 : (ascii "Dense").length = 5 := by decide
    omega
  rw [hlen]
  rfl

theorem dense_truncated_general (d : Dense) (k : Nat) (h : DenseWF d)
    (hk : k < (Dense.serializeBinary d).length) :
    Dense.deserializeBinary ((Dense.serializeBinary d).take k) = .error .outOfRange := by
  obtain ⟨hwf, hrw, hcw, hew, hbl, hbe⟩ := h
  have hdl := denseSer_length d
  have h5 : (ascii "Dense").length = 5 := by decide
  by_cases h13 : k < 13
  · rw [Dense.deserializeBinary]
    simp only [Dense.serializeBinary, List.append_assoc]
    rw [readTag_short (ascii "Dense") _ k (by decide) (by omega), error_bind]
  · obtain ⟨k2, rfl⟩ : ∃ k2, k = 13 + k2 := ⟨k - 13, by omega⟩
    have hk2 : k2 < (Matrix.serializeBinary d.weights).length +
        (Vector.serializeBinary d.biases).length := by omega
    rw [Dense.deserializeBinary]
    simp only [Dense.serializeBinary, List.append_assoc]
    rw [show 13 + k2 = 8 + (5 + k2) from by omega,
      take_exact_add _ _ 8 (5 + k2) (toBeBytes_length 8 _),
      take_exact_add _ _ 5 k2 h5]
    by_cases hM : k2 < (Matrix.serializeBinary d.weights).length
    · rw [List.take_append_of_le_length (by omega), readTag_dense]
      simp only [ok_bind, reduceIte]
      rw [drop_tag13, matrix_truncated_general d.weights k2 hwf hrw hcw hM, error_bind]
    · obtain ⟨k4, rfl⟩ : ∃ k4, k2 = (Matrix.serializeBinary d.weights).length + k4 :=
        ⟨k2 - (Matrix.serializeBinary d.weights).length, by omega⟩
      have hk4 : k4 < (Vector.serializeBinary d.biases).length := by omega
      rw [take_exact_add _ _ _ k4 rfl, readTag_dense]
      simp only [ok_bind, reduceIte]
      rw [drop_tag13, matrix_roundtrip d.weights _ hwf hrw hcw hew]
      simp only [ok_bind]
      have hdV : (toBeBytes 8 (ascii "Dense").length ++ (ascii "Dense" ++
          (Matrix.serializeBinary d.weights ++ (Vector.serializeBinary d.biases).take k4))).drop
          (13 + (16 + 8 * d.weights.rows * d.weights.cols)) =
          (Vector.serializeBinary d.biases).take k4 := by
        rw [show 13 + (16 + 8 * d.weights.rows * d.weights.cols) =
            8 + (5 + (16 + 8 * d.weights.rows * d.weights.cols)) from by omega,
          drop_exact_add _ _ 8 _ (toBeBytes_length 8 _),
          drop_exact_add _ _ 5 _ h5,
          drop_exact _ _ _ (matrixSer_length d.weights hwf)]
      rw [hdV, vector_truncated_general d.biases k4 hbl hk4, error_bind]

theorem activation_truncated (a : Activation) (k : Nat)
    (hk : k < (Activation.serializeBinary a).length) :
    Activation.deserializeBinary ((Activation.serializeBinary a).take k) =
      .error .outOfRange := by
  revert k hk
  cases a <;> decide

theorem activation_complete_invalid (a : Activation) (r : List Nat) :
    Activation.deserializeBinary (Activation.serializeBinary a ++ r) =
      .error .invalidVariant := by
  cases a
  all_goals
    rw [Activation.deserializeBinary]
    simp only [Activation.serializeBinary, Activation.variantTag, List.append_assoc]
    rw [readTag_activation]
    simp only [ok_bind, reduceIte]
    rw [drop_tag18, readTag_front _ r (by decide) (by decide)]
    simp only [ok_bind]
    rw [if_neg (by decide), if_neg (by decide), if_neg (by decide)]

theorem network_loop_truncated (ls : List Layer) (k : Nat)
    (hWF : ∀ l ∈ ls, LayerWF l)
    (hk : k < ((ls.map (fun l => toBeBytes 8 l.name.length ++ l.name ++ l.serializeBinary)).flatten).length) :
    (Network.deserializeLoop ls.length
        (((ls.map (fun l => toBeBytes 8 l.name.length ++ l.name ++ l.serializeBinary)).flatten).take k) =
        .error .outOfRange ∨
      Network.deserializeLoop ls.length
        (((ls.map (fun l => toBeBytes 8 l.name.length ++ l.name ++ l.serializeBinary)).flatten).take k) =
        .error .invalidVariant) ∧
    ((∀ l ∈ ls, layerIsDense l) →
      Network.deserializeLoop ls.length
        (((ls.map (fun l => toBeBytes 8 l.name.length ++ l.name ++ l.serializeBinary)).flatten).take k) =
        .error .outOfRange) := by
  induction ls generalizing k with
  | nil => simp at hk
  | cons l ls ih =>
    cases l with
    | dense d =>
      have hd : DenseWF d := by
        have hx := hWF (.dense d) (by simp)
        simpa [LayerWF] using hx
      have h5 : (ascii "Dense").length = 5 := by decide
      have hname : Layer.name (Layer.dense d) = ascii "Dense" := rfl
      have hser : Layer.serializeBinary (Layer.dense d) = Dense.serializeBinary d := rfl
      simp only [List.map_cons, List.flatten_cons, List.length_cons] at hk ⊢
      rw [hname, hser] at hk ⊢
      have hassoc : (toBeBytes 8 (ascii "Dense").length ++ ascii "Dense" ++
          Dense.serializeBinary d) ++ ((ls.map (fun l => toBeBytes 8 l.name.length ++ l.name ++ l.serializeBinary)).flatten) =
          toBeBytes 8 (ascii "Dense").length ++ (ascii "Dense" ++
            (Dense.serializeBinary d ++ ((ls.map (fun l => toBeBytes 8 l.name.length ++ l.name ++ l.serializeBinary)).flatten))) := by
        simp only [List.append_assoc]
      rw [hassoc] at hk ⊢
      rw [List.length_append, List.length_append, List.length_append,
        toBeBytes_length, h5] at hk
      by_cases h13 : k < 13
      · have hval : Network.deserializeLoop (ls.length + 1)
            ((toBeBytes 8 (ascii "Dense").length ++ (ascii "Dense" ++ (Dense.serializeBinary d ++
              ((ls.map (fun l => toBeBytes 8 l.name.length ++ l.name ++ l.serializeBinary)).flatten)))).take k) = .error .outOfRange := by
          simp only [Network.deserializeLoop]
          rw [readTag_short (ascii "Dense") _ k (by decide) (by omega), error_bind]
        exact ⟨Or.inl hval, fun _ => hval⟩
      · by_cases hrec : k < 13 + (Dense.serializeBinary d).length
        · obtain ⟨k2, rfl⟩ : ∃ k2, k = 13 + k2 := ⟨k - 13, by omega⟩
          have hk2 : k2 < (Dense.serializeBinary d).length := by omega
          have hval : Network.deserializeLoop (ls.length + 1)
              ((toBeBytes 8 (ascii "Dense").length ++ (ascii "Dense" ++ (Dense.serializeBinary d ++
                ((ls.map (fun l => toBeBytes 8 l.name.length ++ l.name ++ l.serializeBinary)).flatten)))).take (13 + k2)) = .error .outOfRange := by
            rw [show 13 + k2 = 8 + (5 + k2) from by omega,
              take_exact_add _ _ 8 (5 + k2) (toBeBytes_length 8 _),
              take_exact_add _ _ 5 k2 h5,
              List.take_append_of_le_length (by omega : k2 ≤ (Dense.serializeBinary d).length)]
            simp only [Network.deserializeLoop]
            rw [readTag_dense]
            simp only [ok_bind, pure_bind]
            rw [drop_tag13, deserializeLayers, if_neg (by decide), if_pos rfl,
              dense_truncated_general d k2 hd hk2, error_bind, error_bind]
          exact ⟨Or.inl hval, fun _ => hval⟩
        · obtain ⟨k2, rfl⟩ : ∃ k2, k = (13 + (Dense.serializeBinary d).length) + k2 :=
            ⟨k - (13 + (Dense.serializeBinary d).length), by omega⟩
          have hk2 : k2 < ((ls.map (fun l => toBeBytes 8 l.name.length ++ l.name ++ l.serializeBinary)).flatten).length := by omega
          obtain ⟨hdisj, hdense⟩ := ih k2 (fun l hl => hWF l (by simp [hl])) hk2
          have hkey : ∀ e : DecodeError,
              Network.deserializeLoop ls.length (((ls.map (fun l => toBeBytes 8 l.name.length ++ l.name ++ l.serializeBinary)).flatten).take k2) = .error e →
              Network.deserializeLoop (ls.length + 1)
                ((toBeBytes 8 (ascii "Dense").length ++ (ascii "Dense" ++
                  (Dense.serializeBinary d ++
                    ((ls.map (fun l => toBeBytes 8 l.name.length ++ l.name ++ l.serializeBinary)).flatten)))).take ((13 + (Dense.serializeBinary d).length) + k2)) =
                .error e := by
            intro e he
            rw [show (13 + (Dense.serializeBinary d).length) + k2 =
                8 + (5 + ((Dense.serializeBinary d).length + k2)) from by omega,
              take_exact_add _ _ 8 _ (toBeBytes_length 8 _),
              take_exact_add _ _ 5 _ h5,
              take_exact_add _ _ _ k2 rfl]
            simp only [Network.deserializeLoop]
            rw [readTag_dense]
            simp only [ok_bind, pure_bind]
            rw [drop_tag13, deserializeLayers, if_neg (by decide), if_pos rfl,
              dense_roundtrip d _ hd]
            simp only [ok_bind, pure_bind]
            have hdrop : (toBeBytes 8 (ascii "Dense").length ++ (ascii "Dense" ++
                (Dense.serializeBinary d ++
                  ((ls.map (fun l => toBeBytes 8 l.name.length ++ l.name ++ l.serializeBinary)).flatten).take k2))).drop (13 + (Dense.serializeBinary d).length) =
                ((ls.map (fun l => toBeBytes 8 l.name.length ++ l.name ++ l.serializeBinary)).flatten).take k2 := by
              rw [show 13 + (Dense.serializeBinary d).length =
                  8 + (5 + (Dense.serializeBinary d).length) from by omega,
                drop_exact_add _ _ 8 _ (toBeBytes_length 8 _),
                drop_exact_add _ _ 5 _ h5,
                drop_exact _ _ _ rfl]
            rw [hdrop, he, error_bind]
          refine ⟨?_, ?_⟩
          · rcases hdisj with h | h
            · exact Or.inl (hkey _ h)
            · exact Or.inr (hkey _ h)
          · intro hall
            exact hkey _ (hdense (fun l hl => hall l (by simp [hl])))
    | activation a =>
      have h10 : (ascii "Activation").length = 10 := by decide
      have hname : Layer.name (Layer.activation a) = ascii "Activation" := rfl
      have hser : Layer.serializeBinary (Layer.activation a) = Activation.serializeBinary a := rfl
      simp only [List.map_cons, List.flatten_cons, List.length_cons] at hk ⊢
      rw [hname, hser] at hk ⊢
      have hassoc : (toBeBytes 8 (ascii "Activation").length ++ ascii "Activation" ++
          Activation.serializeBinary a) ++ ((ls.map (fun l => toBeBytes 8 l.name.length ++ l.name ++ l.serializeBinary)).flatten) =
          toBeBytes 8 (ascii "Activation").length ++ (ascii "Activation" ++
            (Activation.serializeBinary a ++ ((ls.map (fun l => toBeBytes 8 l.name.length ++ l.name ++ l.serializeBinary)).flatten))) := by
        simp only [List.append_assoc]
      rw [hassoc] at hk ⊢
      rw [List.length_append, List.length_append, List.length_append,
        toBeBytes_length, h10] at hk
      by_cases h18 : k < 18
      · have hval : Network.deserializeLoop (ls.length + 1)
            ((toBeBytes 8 (ascii "Activation").length ++ (ascii "Activation" ++
              (Activation.serializeBinary a ++
                ((ls.map (fun l => toBeBytes 8 l.name.length ++ l.name ++ l.serializeBinary)).flatten)))).take k) = .error .outOfRange := by
          simp only [Network.deserializeLoop]
          rw [readTag_short (ascii "Activation") _ k (by decide) (by omega), error_bind]
        exact ⟨Or.inl hval, fun _ => hval⟩
      · by_cases hrec : k < 18 + (Activation.serializeBinary a).length
        · obtain ⟨k2, rfl⟩ : ∃ k2, k = 18 + k2 := ⟨k - 18, by omega⟩
          have hk2 : k2 < (Activation.serializeBinary a).length := by omega
          have hval : Network.deserializeLoop (ls.length + 1)
              ((toBeBytes 8 (ascii "Activation").length ++ (ascii "Activation" ++
                (Activation.serializeBinary a ++
                  ((ls.map (fun l => toBeBytes 8 l.name.length ++ l.name ++ l.serializeBinary)).flatten)))).take (18 + k2)) = .error .outOfRange := by
            rw [show 18 + k2 = 8 + (10 + k2) from by omega,
              take_exact_add _ _ 8 (10 + k2) (toBeBytes_length 8 _),
              take_exact_add _ _ 10 k2 h10,
              List.take_append_of_le_length
                (by omega : k2 ≤ (Activation.serializeBinary a).length)]
            simp only [Network.deserializeLoop]
            rw [readTag_activation]
            simp only [ok_bind, pure_bind]
            rw [drop_tag18, deserializeLayers, if_pos rfl,
              activation_truncated a k2 hk2, error_bind, error_bind]
          exact ⟨Or.inl hval, fun _ => hval⟩
        · obtain ⟨k2, rfl⟩ : ∃ k2, k = (18 + (Activation.serializeBinary a).length) + k2 :=
            ⟨k - (18 + (Activation.serializeBinary a).length), by omega⟩
          have hval : Network.deserializeLoop (ls.length + 1)
              ((toBeBytes 8 (ascii "Activation").length ++ (ascii "Activation" ++
                (Activation.serializeBinary a ++
                  ((ls.map (fun l => toBeBytes 8 l.name.length ++ l.name ++ l.serializeBinary)).flatten)))).take ((18 + (Activation.serializeBinary a).length) + k2)) =
              .error .invalidVariant := by
            rw [show (18 + (Activation.serializeBinary a).length) + k2 =
                8 + (10 + ((Activation.serializeBinary a).length + k2)) from by omega,
              take_exact_add _ _ 8 _ (toBeBytes_length 8 _),
              take_exact_add _ _ 10 _ h10,
              take_exact_add _ _ _ k2 rfl]
            simp only [Network.deserializeLoop]
            rw [readTag_activation]
            simp only [ok_bind, pure_bind]
            rw [drop_tag18, deserializeLayers, if_pos rfl,
              activation_complete_invalid a _, error_bind, error_bind]
          refine ⟨Or.inr hval, fun hall => ?_⟩
          have hfalse : False := hall (Layer.activation a) (by simp)
          exact hfalse.elim

theorem network_truncated_general (net : Network) (k : Nat)
    (hWF : ∀ l ∈ net.layers, LayerWF l) (hlen : net.layers.length < 2 ^ 64)
    (hk : k < (Network.serializeBinary net).length) :
    (Network.deserializeBinary ((Network.serializeBinary net).take k) = .error .outOfRange ∨
      Network.deserializeBinary ((Network.serializeBinary net).take k) =
        .error .invalidVariant) ∧
    ((∀ l ∈ net.layers, layerIsDense l) →
      Network.deserializeBinary ((Network.serializeBinary net).take k) =
        .error .outOfRange) := by
  have hl256 : net.layers.length < 256 ^ 8 := by norm_num at hlen ⊢; omega
  by_cases h8 : k < 8
  · have hval : Network.deserializeBinary ((Network.serializeBinary net).take k) =
        .error .outOfRange := by
      rw [Network.deserializeBinary,
        readBytes_short 8 _ (by rw [List.length_take]; omega), error_bind]
    exact ⟨Or.inl hval, fun _ => hval⟩
  · obtain ⟨k2, rfl⟩ : ∃ k2, k = 8 + k2 := ⟨k - 8, by omega⟩
    have hk2 : k2 < ((net.layers.map
        (fun l => toBeBytes 8 l.name.length ++ l.name ++ l.serializeBinary)).flatten).length := by
      rw [Network.serializeBinary, List.length_append, toBeBytes_length] at hk
      omega
    obtain ⟨hdisj, hdense⟩ := network_loop_truncated net.layers k2 hWF hk2
    have hkey : ∀ e : DecodeError,
        Network.deserializeLoop net.layers.length
          (((net.layers.map
            (fun l => toBeBytes 8 l.name.length ++ l.name ++ l.serializeBinary)).flatten).take k2) =
          .error e →
        Network.deserializeBinary ((Network.serializeBinary net).take (8 + k2)) = .error e := by
      intro e he
      rw [Network.serializeBinary, take_exact_add _ _ 8 k2 (toBeBytes_length 8 _)]
      rw [Network.deserializeBinary, readBytes_front 8 _ _ (toBeBytes_length 8 _), ok_bind,
        drop_exact _ _ 8 (toBeBytes_length 8 _), fromBeBytes_toBeBytes, Nat.mod_eq_of_lt hl256]
      simp only [he, error_bind]
    refine ⟨?_, ?_⟩
    · rcases hdisj with h | h
      · exact Or.inl (hkey _ h)
      · exact Or.inr (hkey _ h)
    · exact fun hall => hkey _ (hdense hall)

/- ## Claim theorems -/

/-- C1: for every supported scalar (`u8`, `u16`, `u32`, `u64`, `usize`,
`i8`, `i16`, `i32`, `i64`, `isize`, `f32`, `f64` — floats as bit
patterns), every `String`, every `Vector`, and every `Matrix` value `v`
(within the Rust types' representation invariants),
`deserialize_binary(serialize_binary(v))` returns exactly
`(v, length(serialize_binary(v)))`. -/
theorem C1_roundtrip_all_value_codecs :
    (∀ v : Nat, v < 2 ^ 8 →
      u8Deserialize (u8Serialize v) = .ok (v, (u8Serialize v).length)) ∧
    (∀ v : Nat, v < 2 ^ 16 →
      u16Deserialize (u16Serialize v) = .ok (v, (u16Serialize v).length)) ∧
    (∀ v : Nat, v < 2 ^ 32 →
      u32Deserialize (u32Serialize v) = .ok (v, (u32Serialize v).length)) ∧
    (∀ v : Nat, v < 2 ^ 64 →
      u64Deserialize (u64Serialize v) = .ok (v, (u64Serialize v).length)) ∧
    (∀ v : Nat, v < 2 ^ 64 →
      usizeDeserialize (usizeSerialize v) = .ok (v, (usizeSerialize v).length)) ∧
    (∀ v : Int, -(2 ^ 7) ≤ v → v < 2 ^ 7 →
      i8Deserialize (i8Serialize v) = .ok (v, (i8Serialize v).length)) ∧
    (∀ v : Int, -(2 ^ 15) ≤ v → v < 2 ^ 15 →
      i16Deserialize (i16Serialize v) = .ok (v, (i16Serialize v).length)) ∧
    (∀ v : Int, -(2 ^ 31) ≤ v → v < 2 ^ 31 →
      i32Deserialize (i32Serialize v) = .ok (v, (i32Serialize v).length)) ∧
    (∀ v : Int, -(2 ^ 63) ≤ v → v < 2 ^ 63 →
      i64Deserialize (i64Serialize v) = .ok (v, (i64Serialize v).length)) ∧
    (∀ v : Int, -(2 ^ 63) ≤ v → v < 2 ^ 63 →
      isizeDeserialize (isizeSerialize v) = .ok (v, (isizeSerialize v).length)) ∧
    (∀ v : Nat, v < 2 ^ 32 →
      f32Deserialize (f32Serialize v) = .ok (v, (f32Serialize v).length)) ∧
    (∀ v : Nat, v < 2 ^ 64 →
      f64Deserialize (f64Serialize v) = .ok (v, (f64Serialize v).length)) ∧
    (∀ st : List Nat, validUtf8 st = true → st.length < 2 ^ 64 →
      stringDeserialize (stringSerialize st) = .ok (st, (stringSerialize st).length)) ∧
    (∀ v : Vector, v.elems.length < 2 ^ 64 → (∀ x ∈ v.elems, x < 2 ^ 64) →
      Vector.deserializeBinary (Vector.serializeBinary v) =
        .ok (v, (Vector.serializeBinary v).length)) ∧
    (∀ m : Matrix, m.WF → m.rows < 2 ^ 64 → m.cols < 2 ^ 64 →
      (∀ col ∈ m.data, ∀ x ∈ col, x < 2 ^ 64) →
      Matrix.deserializeBinary (Matrix.serializeBinary m) =
        .ok (m, (Matrix.serializeBinary m).length)) := by
  refine ⟨?_, ?_, ?_, ?_, ?_, ?_, ?_, ?_, ?_, ?_, ?_, ?_, ?_, ?_, ?_⟩
  · intro v _
    rw [show (u8Serialize v).length = 1 from rfl]
    exact u8_roundtrip v
  · intro v h
    rw [show (u16Serialize v).length = 2 from by rw [u16Serialize, toBeBytes_length]]
    exact u16_roundtrip v h
  · intro v h
    rw [show (u32Serialize v).length = 4 from by rw [u32Serialize, toBeBytes_length]]
    exact u32_roundtrip v h
  · intro v h
    rw [show (u64Serialize v).length = 8 from by rw [u64Serialize, toBeBytes_length]]
    exact u64_roundtrip v h
  · intro v h
    rw [show (usizeSerialize v).length = 8 from by rw [usizeSerialize, toBeBytes_length]]
    exact u64_roundtrip v h
  · intro v h1 h2
    rw [show (i8Serialize v).length = 1 from by rw [i8Serialize, intToBeBytes_length]]
    exact i8_roundtrip v h1 h2
  · intro v h1 h2
    rw [show (i16Serialize v).length = 2 from by rw [i16Serialize, intToBeBytes_length]]
    exact i16_roundtrip v h1 h2
  · intro v h1 h2
    rw [show (i32Serialize v).length = 4 from by rw [i32Serialize, intToBeBytes_length]]
    exact i32_roundtrip v h1 h2
  · intro v h1 h2
    rw [show (i64Serialize v).length = 8 from by rw [i64Serialize, intToBeBytes_length]]
    exact i64_roundtrip v h1 h2
  · intro v h1 h2
    rw [show (isizeSerialize v).length = 8 from by rw [isizeSerialize, intToBeBytes_length]]
    exact i64_roundtrip v h1 h2
  · intro v h
    rw [show (f32Serialize v).length = 4 from by rw [f32Serialize, toBeBytes_length]]
    exact f32_roundtrip v h
  · intro v h
    rw [show (f64Serialize v).length = 8 from by rw [f64Serialize, toBeBytes_length]]
    exact f64_roundtrip v h
  · intro st hv hl
    have h := string_roundtrip st [] hv hl
    rw [List.append_nil] at h
    rw [stringSer_length, Nat.add_comm 8 st.length]
    exact h
  · intro v hl he
    have h := vector_roundtrip v [] hl he
    rw [List.append_nil] at h
    rw [vectorSer_length]
    exact h
  · intro m hwf hr hc he
    have h := matrix_roundtrip m [] hwf hr hc he
    rw [List.append_nil] at h
    rw [matrixSer_length m hwf]
    exact h

theorem C1_roundtrip_all_value_codecs_witness :
    u8Deserialize (u8Serialize 200) = .ok (200, 1) ∧
    u16Deserialize (u16Serialize 40000) = .ok (40000, 2) ∧
    u32Deserialize (u32Serialize 3000000000) = .ok (3000000000, 4) ∧
    u64Deserialize (u64Serialize 9300000000000000000) = .ok (9300000000000000000, 8) ∧
    usizeDeserialize (usizeSerialize 12345) = .ok (12345, 8) ∧
    i8Deserialize (i8Serialize (-100)) = .ok (-100, 1) ∧
    i16Deserialize (i16Serialize (-30000)) = .ok (-30000, 2) ∧
    i32Deserialize (i32Serialize (-2000000000)) = .ok (-2000000000, 4) ∧
    i64Deserialize (i64Serialize (-4611686018427387904)) = .ok (-4611686018427387904, 8) ∧
    isizeDeserialize (isizeSerialize (-7)) = .ok (-7, 8) ∧
    f32Deserialize (f32Serialize 1065353216) = .ok (1065353216, 4) ∧
    f64Deserialize (f64Serialize 4607182418800017408) = .ok (4607182418800017408, 8) ∧
    stringDeserialize (stringSerialize [72, 105]) = .ok ([72, 105], 10) ∧
    Vector.deserializeBinary (Vector.serializeBinary ⟨[1, 2]⟩) = .ok (⟨[1, 2]⟩, 24) ∧
    Matrix.deserializeBinary (Matrix.serializeBinary ⟨1, 2, [[5], [6]]⟩) =
      .ok (⟨1, 2, [[5], [6]]⟩, 32) := by
  obtain ⟨h1, h2, h3, h4, h5, h6, h7, h8, h9, h10, h11, h12, h13, h14, h15⟩ :=
    C1_roundtrip_all_value_codecs
  refine ⟨?_, ?_, ?_, ?_, ?_, ?_, ?_, ?_, ?_, ?_, ?_, ?_, ?_, ?_, ?_⟩
  · simpa [u8Serialize] using h1 200 (by norm_num)
  · simpa [u16Serialize, toBeBytes_length] using h2 40000 (by norm_num)
  · simpa [u32Serialize, toBeBytes_length] using h3 3000000000 (by norm_num)
  · simpa [u64Serialize, toBeBytes_length] using h4 9300000000000000000 (by norm_num)
  · simpa [usizeSerialize, toBeBytes_length] using h5 12345 (by norm_num)
  · simpa [i8Serialize, intToBeBytes_length] using h6 (-100) (by norm_num) (by norm_num)
  · simpa [i16Serialize, intToBeBytes_length] using h7 (-30000) (by norm_num) (by norm_num)
  · simpa [i32Serialize, intToBeBytes_length] using h8 (-2000000000) (by norm_num) (by norm_num)
  · simpa [i64Serialize, intToBeBytes_length] using
      h9 (-4611686018427387904) (by norm_num) (by norm_num)
  · simpa [isizeSerialize, intToBeBytes_length] using h10 (-7) (by norm_num) (by norm_num)
  · simpa [f32Serialize, toBeBytes_length] using h11 1065353216 (by norm_num)
  · simpa [f64Serialize, toBeBytes_length] using h12 4607182418800017408 (by norm_num)
  · simpa [stringSer_length] using h13 [72, 105] (by decide) (by decide)
  · simpa [vectorSer_length] using h14 ⟨[1, 2]⟩ (by decide) (by decide)
  · have h := h15 ⟨1, 2, [[5], [6]]⟩ (by decide) (by decide) (by decide) (by decide)
    rwa [show (Matrix.serializeBinary (⟨1, 2, [[5], [6]]⟩ : Matrix)).length = 32 from
      by decide] at h

/-- C2: the claim says every value of a `derive(Serialize)` enum
round-trips, with the decode dispatch arm matched equal to the tag the
encoder wrote.  It is false on the code: the encoder writes the variant
tag `stringify!(::Variant)` (= `":: Variant"`), the decoder compares
`tag ++ variant_name` (= `"Activation:: Variant"`, no space before the
separator) against the arm strings `stringify!(Type::Variant)`
(= `"Activation :: Variant"`, spaces around the separator), so no arm
ever matches and decoding any encoded unit variant hits the
`panic!("invalid enum variant ..")` arm instead of reproducing the
value. -/
theorem C2_enum_decode_invalid_variant :
    Activation.deserializeBinary (Activation.serializeBinary .Sigmoid) =
      .error .invalidVariant ∧
    Activation.deserializeBinary (Activation.serializeBinary .ReLU) =
      .error .invalidVariant ∧
    Activation.deserializeBinary (Activation.serializeBinary .Tanh) =
      .error .invalidVariant := by
  exact ⟨by decide, by decide, by decide⟩

/-- C3: the claim says every codec decodes its own encoding followed by
arbitrary trailing bytes, consuming exactly the encoding's length.  It
is false on the code for the derived enum codec: decoding
`encode(Activation::ReLU)` plus trailing bytes panics with "invalid enum
variant" (the variant-tag spacing mismatch of C2) instead of returning
any `(value, consumed)` pair. -/
theorem C3_trailing_bytes_enum_fails :
    Activation.deserializeBinary (Activation.serializeBinary .ReLU ++ [0, 0, 0]) =
      .error .invalidVariant := by
  decide

/-- C4: `Network::serialize_binary` does emit the claimed layout (u64
layer count, then per layer a u64 tag length, tag bytes, payload), but
the claim that decoding reproduces the per-index layer list is false on
the code: a network containing an `Activation` layer makes
`Network::deserialize_binary` hit the derived enum decoder's
`panic!("invalid enum variant ..")` (the C2 bug), so no network is
returned at all. -/
theorem C4_network_roundtrip_fails_on_activation :
    Network.serializeBinary ⟨[Layer.activation .Sigmoid]⟩ =
      toBeBytes 8 1 ++ (toBeBytes 8 10 ++ (ascii "Activation" ++
        Activation.serializeBinary .Sigmoid)) ∧
    Network.deserializeBinary (Network.serializeBinary ⟨[Layer.activation .Sigmoid]⟩) =
      .error .invalidVariant := by
  exact ⟨by decide, by decide⟩

/-- C5: for every well-formed R×C `Matrix`, the encoding has length
`16 + 8·R·C`, the 8-byte big-endian word at offset `16 + 8*(col*R + row)`
is element `[row][col]` (i.e. `at(col, row)`, outer loop over columns,
inner over rows), and decoding consumes exactly `16 + 8·R·C` bytes and
reproduces the grid. -/
theorem C5_matrix_layout (m : Matrix) (h : m.WF) (hr : m.rows < 2 ^ 64)
    (hc : m.cols < 2 ^ 64) (he : ∀ col ∈ m.data, ∀ x ∈ col, x < 2 ^ 64) :
    (Matrix.serializeBinary m).length = 16 + 8 * m.rows * m.cols ∧
    (∀ row col : Nat, row < m.rows → col < m.cols →
      ((Matrix.serializeBinary m).drop (16 + 8 * (col * m.rows + row))).take 8 =
        toBeBytes 8 (Matrix.at m col row)) ∧
    Matrix.deserializeBinary (Matrix.serializeBinary m) =
      .ok (m, 16 + 8 * m.rows * m.cols) := by
  refine ⟨matrixSer_length m h, fun row col hrow hcol =>
    matrix_window m h row col hrow hcol, ?_⟩
  have hrt := matrix_roundtrip m [] h hr hc he
  rwa [List.append_nil] at hrt

theorem C5_matrix_layout_witness :
    Matrix.WF ⟨2, 3, [[0, 1], [10, 11], [20, 21]]⟩ ∧
    (Matrix.serializeBinary ⟨2, 3, [[0, 1], [10, 11], [20, 21]]⟩).length = 64 ∧
    Matrix.deserializeBinary (Matrix.serializeBinary ⟨2, 3, [[0, 1], [10, 11], [20, 21]]⟩) =
      .ok (⟨2, 3, [[0, 1], [10, 11], [20, 21]]⟩, 64) := by
  have h := C5_matrix_layout ⟨2, 3, [[0, 1], [10, 11], [20, 21]]⟩
    (by decide) (by decide) (by decide) (by decide)
  refine ⟨by decide, ?_, ?_⟩
  · simpa using h.1
  · simpa using h.2.2

/-- C6 counterexample: the claim promises an out-of-range-class error for
every codec on every too-short input, but truncating the last byte of an
encoded network whose first layer is an `Activation` makes
`Network::deserialize_binary` fail with the invalid-variant panic of the
derive-macro bug (C2) on the complete `Activation` record, before the
truncation point is ever reached — a fault of a different class. -/
theorem C6_truncation_after_activation_counterexample :
    ((Network.serializeBinary
        ⟨[Layer.activation .ReLU,
          Layer.dense ⟨⟨3, 4, List.replicate 4 (List.replicate 3 0)⟩, ⟨[0, 0, 0]⟩⟩]⟩).dropLast).length
        + 1 =
      (Network.serializeBinary
        ⟨[Layer.activation .ReLU,
          Layer.dense ⟨⟨3, 4, List.replicate 4 (List.replicate 3 0)⟩, ⟨[0, 0, 0]⟩⟩]⟩).length ∧
    Network.deserializeBinary
      ((Network.serializeBinary
        ⟨[Layer.activation .ReLU,
          Layer.dense ⟨⟨3, 4, List.replicate 4 (List.replicate 3 0)⟩, ⟨[0, 0, 0]⟩⟩]⟩).dropLast) =
      .error .invalidVariant ∧
    (Except.error DecodeError.invalidVariant ≠
      (Except.error DecodeError.outOfRange : Except DecodeError (Network × Nat))) := by
  exact ⟨by decide, by decide, by decide⟩

/-- C6 (amended): every leaf codec faults with the out-of-range error on
any input strictly shorter than the value's encoding — each fixed-width
scalar on any input shorter than its width, and `String`, `Vector`,
`Matrix`, `Dense` and `Activation` on every strict prefix of an encoding,
truncated at any point including mid-value.  `Network::deserialize_binary`
faults out-of-range on a truncated count header, on every strict prefix of
an all-`Dense` network's encoding, and on the spec's Scenario 3 buffer
(a Dense 4→3 layer then an Activation nonlinearity, last byte dropped);
for an arbitrary network a strict prefix still fails deterministically and
returns no value, with either the out-of-range error or — when decoding
reaches a complete `Activation` record first, the C2 derive-macro bug —
the invalid-variant error. -/
theorem C6_truncated_input_faults :
    (∀ data : List Nat, data.length < 1 → u8Deserialize data = .error .outOfRange) ∧
    (∀ data : List Nat, data.length < 2 → u16Deserialize data = .error .outOfRange) ∧
    (∀ data : List Nat, data.length < 4 → u32Deserialize data = .error .outOfRange) ∧
    (∀ data : List Nat, data.length < 8 → u64Deserialize data = .error .outOfRange) ∧
    (∀ data : List Nat, data.length < 8 → usizeDeserialize data = .error .outOfRange) ∧
    (∀ data : List Nat, data.length < 1 → i8Deserialize data = .error .outOfRange) ∧
    (∀ data : List Nat, data.length < 2 → i16Deserialize data = .error .outOfRange) ∧
    (∀ data : List Nat, data.length < 4 → i32Deserialize data = .error .outOfRange) ∧
    (∀ data : List Nat, data.length < 8 → i64Deserialize data = .error .outOfRange) ∧
    (∀ data : List Nat, data.length < 8 → isizeDeserialize data = .error .outOfRange) ∧
    (∀ data : List Nat, data.length < 4 → f32Deserialize data = .error .outOfRange) ∧
    (∀ data : List Nat, data.length < 8 → f64Deserialize data = .error .outOfRange) ∧
    (∀ (st : List Nat) (k : Nat), st.length < 2 ^ 64 → k < (stringSerialize st).length →
      stringDeserialize ((stringSerialize st).take k) = .error .outOfRange) ∧
    (∀ (v : Vector) (k : Nat), v.elems.length < 2 ^ 64 → k < (Vector.serializeBinary v).length →
      Vector.deserializeBinary ((Vector.serializeBinary v).take k) = .error .outOfRange) ∧
    (∀ (m : Matrix) (k : Nat), m.WF → m.rows < 2 ^ 64 → m.cols < 2 ^ 64 →
      k < (Matrix.serializeBinary m).length →
      Matrix.deserializeBinary ((Matrix.serializeBinary m).take k) = .error .outOfRange) ∧
    (∀ (d : Dense) (k : Nat), DenseWF d → k < (Dense.serializeBinary d).length →
      Dense.deserializeBinary ((Dense.serializeBinary d).take k) = .error .outOfRange) ∧
    (∀ (a : Activation) (k : Nat), k < (Activation.serializeBinary a).length →
      Activation.deserializeBinary ((Activation.serializeBinary a).take k) =
        .error .outOfRange) ∧
    (∀ data : List Nat, data.length < 8 → Network.deserializeBinary data = .error .outOfRange) ∧
    (∀ (net : Network) (k : Nat), (∀ l ∈ net.layers, LayerWF l) →
      net.layers.length < 2 ^ 64 → k < (Network.serializeBinary net).length →
      ((∀ l ∈ net.layers, layerIsDense l) →
        Network.deserializeBinary ((Network.serializeBinary net).take k) = .error .outOfRange) ∧
      (Network.deserializeBinary ((Network.serializeBinary net).take k) = .error .outOfRange ∨
        Network.deserializeBinary ((Network.serializeBinary net).take k) =
          .error .invalidVariant)) ∧
    Network.deserializeBinary
      ((Network.serializeBinary
        ⟨[Layer.dense ⟨⟨3, 4, List.replicate 4 (List.replicate 3 0)⟩, ⟨[0, 0, 0]⟩⟩,
          Layer.activation .ReLU]⟩).dropLast) = .error .outOfRange := by
  exact ⟨u8_truncated, u16_truncated, u32_truncated, u64_truncated, usize_truncated,
    i8_truncated, i16_truncated, i32_truncated, i64_truncated, isize_truncated,
    f32_truncated, f64_truncated,
    string_truncated_general, vector_truncated_general,
    matrix_truncated_general, dense_truncated_general, activation_truncated,
    network_truncated,
    fun net k hWF hlen hk =>
      ⟨(network_truncated_general net k hWF hlen hk).2,
        (network_truncated_general net k hWF hlen hk).1⟩,
    by decide⟩

theorem C6_truncated_input_faults_witness :
    u8Deserialize [] = .error .outOfRange ∧
    u16Deserialize [1] = .error .outOfRange ∧
    u32Deserialize [1, 2, 3] = .error .outOfRange ∧
    u64Deserialize [1, 2, 3] = .error .outOfRange ∧
    usizeDeserialize [] = .error .outOfRange ∧
    i8Deserialize [] = .error .outOfRange ∧
    i16Deserialize [5] = .error .outOfRange ∧
    i32Deserialize [5, 6] = .error .outOfRange ∧
    i64Deserialize [0, 0, 0, 0, 0, 0, 0] = .error .outOfRange ∧
    isizeDeserialize [9] = .error .outOfRange ∧
    f32Deserialize [2] = .error .outOfRange ∧
    f64Deserialize [] = .error .outOfRange ∧
    stringDeserialize ((stringSerialize [72, 105]).take 9) = .error .outOfRange ∧
    Vector.deserializeBinary ((Vector.serializeBinary ⟨[1, 2]⟩).take 23) = .error .outOfRange ∧
    Matrix.deserializeBinary ((Matrix.serializeBinary ⟨1, 2, [[5], [6]]⟩).take 31) =
      .error .outOfRange ∧
    Dense.deserializeBinary ((Dense.serializeBinary ⟨⟨1, 1, [[5]]⟩, ⟨[7]⟩⟩).take 20) =
      .error .outOfRange ∧
    Activation.deserializeBinary ((Activation.serializeBinary .Tanh).take 32) =
      .error .outOfRange ∧
    Network.deserializeBinary [0, 0, 0] = .error .outOfRange ∧
    Network.deserializeBinary
      ((Network.serializeBinary ⟨[Layer.dense ⟨⟨1, 1, [[5]]⟩, ⟨[7]⟩⟩]⟩).take 12) =
      .error .outOfRange := by
  obtain ⟨h1, h2, h3, h4, h5, h6, h7, h8, h9, h10, h11, h12, h13, h14, h15, h16, h17,
    h18, h19, h20⟩ := C6_truncated_input_faults
  exact ⟨h1 [] (by decide), h2 [1] (by decide), h3 [1, 2, 3] (by decide),
    h4 [1, 2, 3] (by decide), h5 [] (by decide), h6 [] (by decide), h7 [5] (by decide),
    h8 [5, 6] (by decide), h9 [0, 0, 0, 0, 0, 0, 0] (by decide), h10 [9] (by decide),
    h11 [2] (by decide), h12 [] (by decide),
    h13 [72, 105] 9 (by decide) (by decide),
    h14 ⟨[1, 2]⟩ 23 (by decide) (by decide),
    h15 ⟨1, 2, [[5], [6]]⟩ 31 (by decide) (by decide) (by decide) (by decide),
    h16 ⟨⟨1, 1, [[5]]⟩, ⟨[7]⟩⟩ 20 (by decide) (by decide),
    h17 .Tanh 32 (by decide),
    h18 [0, 0, 0] (by decide),
    (h19 ⟨[Layer.dense ⟨⟨1, 1, [[5]]⟩, ⟨[7]⟩⟩]⟩ 12 (by decide) (by decide) (by decide)).1
      (by decide)⟩

/-- C7: when a derived struct or enum decoder reads a leading type tag
different from `Self::tag()`, it faults with the tag-mismatch error (the
failed `assert_eq!`) and never proceeds to construct a value. -/
theorem C7_tag_mismatch_fatal :
    (∀ (data tag : List Nat) (c : Nat), readTag data = .ok (tag, c) →
      tag ≠ ascii "Dense" →
      Dense.deserializeBinary data = .error .tagMismatch) ∧
    (∀ (data tag : List Nat) (c : Nat), readTag data = .ok (tag, c) →
      tag ≠ ascii "Activation" →
      Activation.deserializeBinary data = .error .tagMismatch) :=
  ⟨dense_tag_mismatch, activation_tag_mismatch⟩

theorem C7_tag_mismatch_fatal_witness :
    Dense.deserializeBinary (toBeBytes 8 4 ++ ascii "Nope") = .error .tagMismatch ∧
    Activation.deserializeBinary (toBeBytes 8 4 ++ ascii "Nope") = .error .tagMismatch :=
  ⟨C7_tag_mismatch_fatal.1 _ (ascii "Nope") 12 (by decide) (by decide),
    C7_tag_mismatch_fatal.2 _ (ascii "Nope") 12 (by decide) (by decide)⟩

/-- C8: a layer record whose tag is outside the statically enumerated
set (`"Activation"`, `"Dense"`) makes `deserialize_layers!` fail hard
with the unknown-tag panic (never a default layer), an enum tag matching
no variant arm is the fatal invalid-variant panic, and the spec's
Scenario 5 buffer (one record tagged `"Unknown"`) makes
`Network::deserialize_binary` fail with the unknown-tag error. -/
theorem C8_unknown_tag_fatal :
    (∀ tag data : List Nat, tag ≠ ascii "Activation" → tag ≠ ascii "Dense" →
      deserializeLayers tag data = .error .unknownTag) ∧
    (∀ (data tag vname : List Nat) (c c2 : Nat),
      readTag data = .ok (tag, c) → tag = ascii "Activation" →
      readTag (data.drop c) = .ok (vname, c2) →
      tag ++ vname ≠ ascii "Activation :: Sigmoid" →
      tag ++ vname ≠ ascii "Activation :: ReLU" →
      tag ++ vname ≠ ascii "Activation :: Tanh" →
      Activation.deserializeBinary data = .error .invalidVariant) ∧
    Network.deserializeBinary (toBeBytes 8 1 ++ (toBeBytes 8 7 ++ ascii "Unknown")) =
      .error .unknownTag := by
  refine ⟨fun tag data h1 h2 => deserializeLayers_unknown tag data h1 h2,
    fun data tag vname c c2 h1 h2 h3 k1 k2 k3 =>
      activation_invalid_variant data tag vname c c2 h1 h2 h3 k1 k2 k3, by decide⟩

theorem C8_unknown_tag_fatal_witness :
    deserializeLayers (ascii "Unknown") [] = .error .unknownTag ∧
    Activation.deserializeBinary (Activation.serializeBinary .Sigmoid) =
      .error .invalidVariant := by
  refine ⟨C8_unknown_tag_fatal.1 (ascii "Unknown") [] (by decide) (by decide), ?_⟩
  exact C8_unknown_tag_fatal.2.1 (Activation.serializeBinary .Sigmoid)
    (ascii "Activation") (ascii ":: Sigmoid") 18 18
    (by decide) (by decide) (by decide) (by decide) (by decide) (by decide)

/-- C9: encoding the empty `Network` produces exactly the 8 zero bytes of
the big-endian u64 `0`, and decoding that buffer returns the empty layer
list with consumed length 8. -/
theorem C9_empty_network_roundtrip :
    Network.serializeBinary ⟨[]⟩ = List.replicate 8 0 ∧
    Network.deserializeBinary (Network.serializeBinary ⟨[]⟩) = .ok (⟨[]⟩, 8) := by
  exact ⟨by decide, by decide⟩

/-- C10: the `String` codec's u64 length prefix is the UTF-8 byte length
(every valid-UTF-8 byte string round-trips with consumed length
`8 + byte length`), and the byte length is not the character count: the
two-byte single-character string `[0xC3, 0xA9]` is prefixed with length
2, not 1, and still round-trips. -/
theorem C10_string_length_header :
    (∀ st : List Nat, validUtf8 st = true → st.length < 2 ^ 64 →
      (stringSerialize st).take 8 = toBeBytes 8 st.length ∧
      stringDeserialize (stringSerialize st) = .ok (st, 8 + st.length)) ∧
    (validUtf8 [0xC3, 0xA9] = true ∧ charCount [0xC3, 0xA9] = 1 ∧
      ([0xC3, 0xA9] : List Nat).length = 2 ∧
      stringDeserialize (stringSerialize [0xC3, 0xA9]) = .ok ([0xC3, 0xA9], 10)) := by
  refine ⟨fun st hv hl => ⟨?_, ?_⟩, by decide, by decide, by decide, by decide⟩
  · have htk := List.take_left (toBeBytes 8 st.length) st
    rw [toBeBytes_length] at htk
    exact htk
  · have h := string_roundtrip st [] hv hl
    rw [List.append_nil] at h
    rw [Nat.add_comm 8 st.length]
    exact h

theorem C10_string_length_header_witness :
    stringDeserialize (stringSerialize [97]) = .ok ([97], 9) := by
  have h := (C10_string_length_header.1 [97] (by decide) (by decide)).2
  simpa using h

end MR
